import Mathlib

/-!
Verification of the context-assembly and caching engine of TRIBE-INC/claw-tribe.

The definitions below are a shallow embedding, translated from
`src/extension/lib/context-builder.ts`, `src/extension/lib/tribe-runner.ts`
(collaborator boundary only) and the intelligent cache module
(`src/unnamed/part_007`, `intelligent-cache.ts`).

Modelling conventions:
* JavaScript promises collapse to values; a call that can reject is modelled
  in the `Except JsErr` monad, and `try/catch` blocks are modelled by explicit
  matches at exactly the places the source has them.
* Wall-clock time is a `Nat` passed explicitly; one instant per operation
  (the source may call `Date.now()` several times inside one operation, which
  can only differ by clock ticks during a single cooperative step).
* JS strings are modelled as Lean `String` (codepoints rather than UTF-16
  units; no claim depends on astral characters).
* The filesystem is modelled as reliable state; unparsable or missing files
  are modelled explicitly because the source branches on them.
-/

/-! ## JS whitespace, trim, indexOf (String.prototype helpers used by the source) -/

/-- The character class of the JS `\s` regex and of `String.prototype.trim`. -/
def isJsWsChar (c : Char) : Bool :=
  let n := c.toNat
  n == 32 || n == 9 || n == 10 || n == 11 || n == 12 || n == 13 ||
  n == 160 || n == 5760 || (Nat.ble 8192 n && Nat.ble n 8202) ||
  n == 8232 || n == 8233 || n == 8239 || n == 8287 || n == 12288 || n == 65279

/-- `String.prototype.trim` on a char list: drop leading and trailing whitespace. -/
def jsTrimList (l : List Char) : List Char :=
  ((l.dropWhile isJsWsChar).reverse.dropWhile isJsWsChar).reverse

/-- `String.prototype.trim`. -/
def jsTrim (s : String) : String :=
  String.mk (jsTrimList s.toList)

/-- Index of the first occurrence of `c`, `-1` when absent
(`String.prototype.indexOf` for a one-character needle). -/
def jsIndexOfAux (l : List Char) (c : Char) (i : Nat) : Int :=
  match l with
  | [] => -1
  | x :: xs => if x = c then Int.ofNat i else jsIndexOfAux xs c (i + 1)

/-- `s.indexOf(c)` for a single character `c`. -/
def jsIndexOf (s : String) (c : Char) : Int :=
  jsIndexOfAux s.toList c 0

/-- `s.slice(n)`: drop the first `n` characters. -/
def jsSliceFrom (s : String) (n : Nat) : String :=
  String.mk (s.toList.drop n)

/-- `s.slice(0, n)`: take the first `n` characters. -/
def jsSliceTo (s : String) (n : Nat) : String :=
  String.mk (s.toList.take n)

/-- The character `{` (written by code point to keep braces out of literals). -/
def lbraceChar : Char := Char.ofNat 123

/-- The character `}`. -/
def rbraceChar : Char := Char.ofNat 125

/-- Does the string start with the single character `c`
(`String.prototype.startsWith` with a one-character argument)? -/
def startsWithChar (s : String) (c : Char) : Bool :=
  match s.toList with
  | [] => false
  | c0 :: _ => c0 == c

/-! ## JSON values and a model of `JSON.parse`

`context-builder.ts` consumes CLI output through `JSON.parse`. The value
grammar (null, booleans, numbers, strings, arrays, objects) is modelled
faithfully; number values keep their source lexeme (the engine' s float
canonicalisation is irrelevant to every claim), and string escapes are decoded
for the simple escapes and `\u` sequences. -/

/-! Arrays and objects are mutual inductives rather than nested `List`s so
that the recursive functions over documents are structural (and hence
evaluate inside the kernel); `ofList`/`toList` conversions bridge to
ordinary lists. -/

mutual

/-- A parsed JSON document. -/
inductive Json where
  | null
  | bool (b : Bool)
  | num (lex : String)
  | str (s : String)
  | arr (elems : JsonArr)
  | obj (fields : JsonObj)

inductive JsonArr where
  | nil
  | cons (hd : Json) (tl : JsonArr)

inductive JsonObj where
  | nil
  | cons (key : String) (val : Json) (tl : JsonObj)

end

/-- Build a JSON array from a list of values. -/
def JsonArr.ofList : List Json → JsonArr
  | [] => .nil
  | j :: js => .cons j (JsonArr.ofList js)

/-- The elements of a JSON array as a list. -/
def JsonArr.toList : JsonArr → List Json
  | .nil => []
  | .cons j js => j :: JsonArr.toList js

/-- Build a JSON object from key/value pairs. -/
def JsonObj.ofList : List (String × Json) → JsonObj
  | [] => .nil
  | (k, v) :: fs => .cons k v (JsonObj.ofList fs)

/-- First-match field lookup in a JSON object. -/
def JsonObj.lookup : JsonObj → String → Option Json
  | .nil, _ => none
  | .cons k v fs, name => if k = name then some v else JsonObj.lookup fs name

/-- JSON-grammar whitespace (space, tab, line feed, carriage return). -/
def isJsonWs (c : Char) : Bool :=
  c == ' ' || c.toNat == 9 || c.toNat == 10 || c.toNat == 13

/-- Skip JSON whitespace. -/
def skipJsonWs : List Char → List Char
  | [] => []
  | c :: cs => if isJsonWs c then skipJsonWs cs else c :: cs

/-- Value of a hex digit, if any. -/
def hexDigitVal (c : Char) : Option Nat :=
  if '0' ≤ c ∧ c ≤ '9' then some (c.toNat - 48)
  else if 'a' ≤ c ∧ c ≤ 'f' then some (c.toNat - 87)
  else if 'A' ≤ c ∧ c ≤ 'F' then some (c.toNat - 55)
  else none

/-- Decode the body of a JSON string literal after the opening quote.
Returns the decoded characters and the input after the closing quote. -/
def parseJsonStringBody (fuel : Nat) (l : List Char) :
    Except String (List Char × List Char) :=
  match fuel, l with
  | 0, _ => .error "fuel exhausted"
  | _, [] => .error "unterminated string in JSON"
  | fuel + 1, c :: cs =>
    if c = '"' then .ok ([], cs)
    else if c = '\\' then
      match cs with
      | [] => .error "bad escape in JSON"
      | e :: cs' =>
        if e = 'u' then
          match cs' with
          | h1 :: h2 :: h3 :: h4 :: cs'' =>
            match hexDigitVal h1, hexDigitVal h2, hexDigitVal h3, hexDigitVal h4 with
            | some a, some b, some c4, some d =>
              (parseJsonStringBody fuel cs'').map fun (body, rest) =>
                (Char.ofNat (((a * 16 + b) * 16 + c4) * 16 + d) :: body, rest)
            | _, _, _, _ => .error "bad unicode escape in JSON"
          | _ => .error "bad unicode escape in JSON"
        else
          let map : Option Char :=
            if e = '"' then some '"'
            else if e = '\\' then some '\\'
            else if e = '/' then some '/'
            else if e = 'b' then some (Char.ofNat 8)
            else if e = 'f' then some (Char.ofNat 12)
            else if e = 'n' then some (Char.ofNat 10)
            else if e = 'r' then some (Char.ofNat 13)
            else if e = 't' then some (Char.ofNat 9)
            else none
          match map with
          | some d => (parseJsonStringBody fuel cs').map fun (body, rest) => (d :: body, rest)
          | none => .error "bad escape in JSON"
    else if c.toNat < 32 then .error "control character in JSON string"
    else (parseJsonStringBody fuel cs).map fun (body, rest) => (c :: body, rest)

/-- Scan a JSON number lexeme: `-? (0 | [1-9][0-9]*) frac? exp?`.
Returns the lexeme and the remaining input, or `none` when the head of the
input is not a well-formed number. -/
def scanJsonNumber (l : List Char) : Option (List Char × List Char) :=
  let (sign, l1) :=
    match l with
    | '-' :: rest => (['-'], rest)
    | _ => (([] : List Char), l)
  let intDigits := l1.takeWhile Char.isDigit
  let afterInt := l1.dropWhile Char.isDigit
  if intDigits.isEmpty then none
  else if intDigits.length > 1 ∧ intDigits.headD '0' = '0' then none
  else
    match afterInt with
    | '.' :: rest =>
      let ds := rest.takeWhile Char.isDigit
      if ds.isEmpty then none
      else scanJsonExpPart (sign ++ intDigits ++ '.' :: ds) (rest.dropWhile Char.isDigit)
    | _ => scanJsonExpPart (sign ++ intDigits) afterInt
where
  /-- Scan the optional exponent part and finish the lexeme. -/
  scanJsonExpPart (acc : List Char) (l : List Char) : Option (List Char × List Char) :=
    match l with
    | 'e' :: rest => scanJsonExpTail acc 'e' rest
    | 'E' :: rest => scanJsonExpTail acc 'E' rest
    | _ => some (acc, l)
  /-- Scan the exponent digits after `e`/`E`. -/
  scanJsonExpTail (acc : List Char) (e : Char) (l : List Char) : Option (List Char × List Char) :=
    let (sgn, l1) :=
      match l with
      | '+' :: rest => (['+'], rest)
      | '-' :: rest => (['-'], rest)
      | _ => (([] : List Char), l)
    let ds := l1.takeWhile Char.isDigit
    if ds.isEmpty then none
    else some (acc ++ e :: sgn ++ ds, l1.dropWhile Char.isDigit)

mutual

/-- Parse one JSON value from the input (leading whitespace allowed). -/
def parseJsonVal (fuel : Nat) (l : List Char) : Except String (Json × List Char) :=
  match fuel with
  | 0 => .error "fuel exhausted"
  | fuel + 1 =>
    match skipJsonWs l with
    | [] => .error "unexpected end of JSON input"
    | c :: cs =>
      if c = 'n' then
        match cs with
        | 'u' :: 'l' :: 'l' :: rest => .ok (.null, rest)
        | _ => .error "unexpected token in JSON"
      else if c = 't' then
        match cs with
        | 'r' :: 'u' :: 'e' :: rest => .ok (.bool true, rest)
        | _ => .error "unexpected token in JSON"
      else if c = 'f' then
        match cs with
        | 'a' :: 'l' :: 's' :: 'e' :: rest => .ok (.bool false, rest)
        | _ => .error "unexpected token in JSON"
      else if c = '"' then
        (parseJsonStringBody (cs.length + 1) cs).map fun (body, rest) =>
          (.str (String.mk body), rest)
      else if c = '[' then
        match skipJsonWs cs with
        | ']' :: rest => .ok (.arr .nil, rest)
        | cs' => parseJsonArrElems fuel cs' []
      else if c = lbraceChar then
        match skipJsonWs cs with
        | c' :: rest =>
          if c' = rbraceChar then .ok (.obj .nil, rest)
          else parseJsonObjFields fuel (c' :: rest) []
        | [] => .error "unexpected end of JSON input"
      else
        match scanJsonNumber (c :: cs) with
        | some (lex, rest) => .ok (.num (String.mk lex), rest)
        | none => .error "unexpected token in JSON"

/-- Parse the elements of a JSON array after `[` (first element pending). -/
def parseJsonArrElems (fuel : Nat) (l : List Char) (acc : List Json) :
    Except String (Json × List Char) :=
  match fuel with
  | 0 => .error "fuel exhausted"
  | fuel + 1 =>
    match parseJsonVal fuel l with
    | .error e => .error e
    | .ok (v, rest) =>
      match skipJsonWs rest with
      | ',' :: rest' => parseJsonArrElems fuel rest' (v :: acc)
      | ']' :: rest' => .ok (.arr (JsonArr.ofList (v :: acc).reverse), rest')
      | _ => .error "expected comma or end of array in JSON"

/-- Parse the fields of a JSON object after the opening brace (first field pending). -/
def parseJsonObjFields (fuel : Nat) (l : List Char) (acc : List (String × Json)) :
    Except String (Json × List Char) :=
  match fuel with
  | 0 => .error "fuel exhausted"
  | fuel + 1 =>
    match skipJsonWs l with
    | '"' :: cs =>
      match parseJsonStringBody (cs.length + 1) cs with
      | .error e => .error e
      | .ok (keyBody, afterKey) =>
        match skipJsonWs afterKey with
        | ':' :: afterColon =>
          match parseJsonVal fuel afterColon with
          | .error e => .error e
          | .ok (v, rest) =>
            match skipJsonWs rest with
            | ',' :: rest' => parseJsonObjFields fuel rest' ((String.mk keyBody, v) :: acc)
            | c :: rest' =>
              if c = rbraceChar then
                .ok (.obj (JsonObj.ofList (acc.reverse ++ [(String.mk keyBody, v)])), rest')
              else .error "expected comma or end of object in JSON"
            | [] => .error "unexpected end of JSON input"
        | _ => .error "expected colon in JSON object"
    | _ => .error "expected string key in JSON object"

end

/-- Model of `JSON.parse`: parse a complete JSON document, rejecting
trailing garbage. -/
def jsonParse (s : String) : Except String Json :=
  let cs := s.toList
  match parseJsonVal (2 * cs.length + 2) cs with
  | .error e => .error e
  | .ok (v, rest) =>
    match skipJsonWs rest with
    | [] => .ok v
    | _ => .error "unexpected trailing characters in JSON"

/-! ## Errors thrown inside the core -/

/-- The JS exceptions the core can raise internally: the typed
`SyntaxError("No JSON found in output")` of `extractJSON`, parse failures of
`JSON.parse`, and `TypeError`s from property access on `null`/`undefined`. -/
inductive JsErr where
  | syntaxNoJson
  | syntaxParse (msg : String)
  | typeError (msg : String)
deriving DecidableEq, Repr

deriving instance DecidableEq for Except

/-! ## `extractJSON` (context-builder.ts, lines 10–29) -/

/-- `extractJSON`: trim, fast-path clean JSON, otherwise parse from the first
`[` or the first brace; throw the typed `SyntaxError` when neither occurs. -/
def extractJSON (stdout : String) : Except JsErr Json :=
  let trimmed := jsTrim stdout
  if startsWithChar trimmed '[' || startsWithChar trimmed lbraceChar then
    (jsonParse trimmed).mapError JsErr.syntaxParse
  else
    let arrayStart : Int := jsIndexOf trimmed '['
    let objectStart : Int := jsIndexOf trimmed lbraceChar
    let start : Int :=
      if arrayStart ≥ 0 ∧ objectStart ≥ 0 then min arrayStart objectStart
      else max arrayStart objectStart
    if start < 0 then .error JsErr.syntaxNoJson
    else (jsonParse (jsSliceFrom trimmed start.toNat)).mapError JsErr.syntaxParse

/-- Does the raw text contain at least one `[` or one opening brace?
(The condition claim C6 quantifies over.) -/
def jsStrContainsBracket (s : String) : Bool :=
  s.toList.any fun c => c == '[' || c == lbraceChar

/-! ## Term extractor (context-builder.ts, lines 135–198) -/

/-- The stop-word set of `context-builder.ts` (lines 136–150). -/
def STOP_WORDS : List String := [
  "a", "an", "the", "is", "are", "was", "were", "be", "been", "being",
  "have", "has", "had", "do", "does", "did", "will", "would", "could",
  "should", "may", "might", "shall", "can", "need", "must",
  "i", "you", "he", "she", "it", "we", "they", "me", "him", "her", "us", "them",
  "my", "your", "his", "its", "our", "their",
  "this", "that", "these", "those", "what", "which", "who", "whom",
  "and", "but", "or", "nor", "not", "no", "so", "if", "then", "else",
  "for", "of", "in", "on", "at", "to", "by", "with", "from", "up", "out",
  "about", "into", "through", "during", "before", "after", "above", "below",
  "how", "when", "where", "why", "all", "each", "every", "both",
  "few", "more", "most", "other", "some", "such", "only", "same",
  "than", "too", "very", "just", "because", "as", "until", "while",
  "use", "using", "implement", "add", "create", "make", "get", "set"]

/-- ASCII lower-casing, as `String.prototype.toLowerCase` acts on the
characters that survive the sanitising replace (non-ASCII case mappings are
not modelled; such characters are replaced by spaces right after). -/
def jsLowerChar (c : Char) : Char :=
  if 'A' ≤ c ∧ c ≤ 'Z' then Char.ofNat (c.toNat + 32) else c

/-- Is `c` kept by the regex class `[a-z0-9\s-]` (after lower-casing)? -/
def keepAfterLower (c : Char) : Bool :=
  ('a' ≤ c && c ≤ 'z') || ('0' ≤ c && c ≤ '9') || c == '-' || isJsWsChar c

/-- `.replace(/[^a-z0-9\s-]/g, " ")` on one character. -/
def sanitizeChar (c : Char) : Char :=
  if keepAfterLower c then c else ' '

/-- Split on whitespace runs, returning the non-empty tokens
(`String.prototype.split(/\s+/)`; the single empty token JS produces when the
input starts with whitespace is dropped here — every use site either filters
by a length bound or trims first). -/
def tokenizeWsAux : List Char → List Char → List String
  | [], acc =>
    match acc with
    | [] => []
    | _ => [String.mk acc.reverse]
  | c :: cs, acc =>
    if isJsWsChar c then
      match acc with
      | [] => tokenizeWsAux cs []
      | _ => String.mk acc.reverse :: tokenizeWsAux cs []
    else tokenizeWsAux cs (c :: acc)

/-- Whitespace tokenization of a string. -/
def tokenizeWs (s : String) : List String :=
  tokenizeWsAux s.toList []

/-- The filtering pipeline of `extractSearchKeywords` (lines 157–161):
lower-case, replace non-`[a-z0-9\s-]` by spaces, split on whitespace, keep
tokens of length at least 3 that are not stop words. -/
def filteredWords (prompt : String) : List String :=
  (tokenizeWs (String.mk ((prompt.toList.map jsLowerChar).map sanitizeChar))).filter
    fun w => Nat.ble 3 w.length && !(STOP_WORDS.contains w)

/-- The fallback of `extractSearchKeywords` (line 164):
`prompt.trim().split(/\s+/)[0] || prompt`. -/
def firstRawToken (prompt : String) : String :=
  match tokenizeWs (jsTrim prompt) with
  | [] => prompt
  | t :: _ => t

/-- Scoring (lines 169–172): `length * 10` plus an earlier-position bonus. -/
def scoreWords (ws : List String) : List (String × Nat) :=
  ws.enum.map fun p => (p.2, p.2.length * 10 + (ws.length - p.1))

/-- One `Map.set`-with-max step (lines 176–181): update the score of an
existing key in place when the new score is strictly greater, otherwise
append the new key; JS `Map` preserves first-insertion order. -/
def upsertMax : List (String × Nat) → (String × Nat) → List (String × Nat)
  | [], p => [p]
  | q :: rest, p =>
    if q.1 = p.1 then (q.1, if p.2 > q.2 then p.2 else q.2) :: rest
    else q :: upsertMax rest p

/-- Deduplication keeping the highest score per word (lines 175–181). -/
def dedupMax (l : List (String × Nat)) : List (String × Nat) :=
  l.foldl upsertMax []

/-- Stable insertion into a sorted list: the new element goes after every
element `b` with `le b a`. -/
def insertStable (le : α → α → Bool) (a : α) : List α → List α
  | [] => [a]
  | b :: bs => if le b a then b :: insertStable le a bs else a :: b :: bs

/-- A stable sort with respect to the total preorder `le`; models JS
`Array.prototype.sort` with a consistent comparator (stable per ES2019). -/
def stableSortBy (le : α → α → Bool) (l : List α) : List α :=
  l.foldl (fun acc a => insertStable le a acc) []

/-- Descending-score order of the comparator `(a, b) => b[1] - a[1]`. -/
def scoreGe (a b : String × Nat) : Bool :=
  Nat.ble b.2 a.2

/-- `extractSearchKeywords` (lines 156–189). -/
def extractSearchKeywords (prompt : String) (count : Nat := 3) : List String :=
  let words := filteredWords prompt
  match words with
  | [] => [firstRawToken prompt]
  | _ =>
    let scored := scoreWords words
    let seen := dedupMax scored
    let unique := (stableSortBy scoreGe seen).map Prod.fst
    unique.take count

/-- `extractSearchKeyword` (lines 196–198): best single keyword. -/
def extractSearchKeyword (prompt : String) : String :=
  ((extractSearchKeywords prompt 1).headD prompt)

/-! ## Two-tier intelligent cache (intelligent-cache.ts)

Cache keys in the source are the strings `namespace + ":" + md5hex(rawKey)`.
They are modelled as pairs `(namespace, digest)`: since the namespace names
contain no colon and the digest is hexadecimal, the string form and the pair
form determine each other, and the `key.startsWith(namespace + ":")` test of
`invalidate` is exactly a first-component test. The MD5 digest itself is kept
abstract as a parameter `md5 : String → String`; every claim about the cache
holds for an arbitrary digest function. -/

/-- The cache namespaces (intelligent-cache.ts, line 15). -/
inductive CacheNamespace where
  | kb
  | sessions
  | search
deriving DecidableEq, Repr

/-- Fast-tier TTLs in milliseconds (lines 28–32). -/
def L1_TTLS : CacheNamespace → Nat
  | .kb => 10 * 60000
  | .sessions => 1 * 60000
  | .search => 5 * 60000

/-- Persisted-tier TTLs in milliseconds (lines 34–38). -/
def L2_TTLS : CacheNamespace → Nat
  | .kb => 30 * 60000
  | .sessions => 5 * 60000
  | .search => 15 * 60000

/-- Debounce window for persisted writes (line 41). -/
def DEBOUNCE_MS : Nat := 2000

/-- A structured cache key `(namespace, digest)`. -/
abbrev CKey := CacheNamespace × String

/-- `cacheKey(namespace, key)` (lines 47–50), with the MD5 digest abstract. -/
def cacheKey (md5 : String → String) (ns : CacheNamespace) (key : String) : CKey :=
  (ns, md5 key)

/-- A fast-tier entry (lines 17–20). -/
structure CacheEntry (V : Type) where
  value : V
  expiresAt : Nat
deriving DecidableEq, Repr

/-- A persisted-tier entry. -/
structure DiskEntry (V : Type) where
  value : V
  expiresAt : Nat
deriving DecidableEq, Repr

/-- The on-disk format (lines 22–25): a version tag and a keyed entry map
(JS object keys are unique and preserve insertion order, hence an
association list). -/
structure DiskCacheFormat (V : Type) where
  version : Nat
  entries : List (CKey × DiskEntry V)
deriving DecidableEq, Repr

/-- One namespace's persisted storage unit: absent, unparsable, or parsed. -/
inductive DiskFile (V : Type) where
  | missing
  | malformed
  | file (f : DiskCacheFormat V)
deriving DecidableEq, Repr

/-- The mutable state of an `IntelligentCache` instance plus its persisted
tier: the L1 map, the per-namespace disk files, the dirty-namespace set, the
pending debounce timers and the `l2Loaded` marker set (lines 60–64). -/
structure CacheState (V : Type) where
  l1 : List (CKey × CacheEntry V)
  disk : CacheNamespace → DiskFile V
  l2Dirty : List CacheNamespace
  l2Timers : List CacheNamespace
  l2Loaded : List CacheNamespace

/-- First-match association lookup (JS `Map.get` / object indexing). -/
def lookupKey [DecidableEq κ] : List (κ × β) → κ → Option β
  | [], _ => none
  | p :: rest, k => if p.1 = k then some p.2 else lookupKey rest k

/-- In-place association update, appending when the key is new
(JS `Map.set` / object property assignment: existing keys keep their
position, new keys go last). -/
def setAssoc [DecidableEq κ] : List (κ × β) → κ → β → List (κ × β)
  | [], k, v => [(k, v)]
  | p :: rest, k, v => if p.1 = k then (k, v) :: rest else p :: setAssoc rest k v

/-- Key removal (JS `Map.delete`; `Map` keys are unique, so removing every
occurrence from the model list is the same operation). -/
def removeKey [DecidableEq κ] (l : List (κ × β)) (k : κ) : List (κ × β) :=
  l.filter fun p => !(p.1 = k : Bool)

/-- Add a namespace to a set-like list (JS `Set.add`). -/
def insertNs (l : List CacheNamespace) (ns : CacheNamespace) : List CacheNamespace :=
  if l.contains ns then l else l ++ [ns]

/-- Read one entry of the persisted tier, ignoring expiry: `undefined` for a
missing or malformed file, a wrong version tag, or an absent key
(`l2Get`, lines 176–192, after the expiry check is split off below). -/
def diskLookup (st : CacheState V) (ns : CacheNamespace) (ck : CKey) : Option (DiskEntry V) :=
  match st.disk ns with
  | .file f => if f.version = 1 then lookupKey f.entries ck else none
  | _ => none

/-- `l2Get` (lines 176–192): a persisted entry is readable only while
`now < expiresAt`; read failures surface as `undefined`. -/
def IntelligentCache.l2Get (st : CacheState V) (ns : CacheNamespace) (ck : CKey) (now : Nat) : Option V :=
  match diskLookup st ns ck with
  | none => none
  | some e => if e.expiresAt ≤ now then none else some e.value

/-- The L2 phase of `get`: `loadL2` marks the namespace loaded (lines
194–198), then an L2 hit is promoted into L1 with a fresh fast-tier TTL
(lines 82–93). -/
def IntelligentCache.getL2Phase (st : CacheState V) (ns : CacheNamespace) (ck : CKey) (now : Nat) :
    Option V × CacheState V :=
  let st1 := { st with l2Loaded := insertNs st.l2Loaded ns }
  match IntelligentCache.l2Get st ns ck now with
  | some v => (some v, { st1 with l1 := setAssoc st1.l1 ck ⟨v, now + L1_TTLS ns⟩ })
  | none => (none, st1)

/-- `get` (lines 70–94): check L1 first; an expired L1 entry is deleted and
the lookup falls through to the persisted tier. -/
def IntelligentCache.get (md5 : String → String) (st : CacheState V) (ns : CacheNamespace)
    (key : String) (now : Nat) : Option V × CacheState V :=
  let ck := cacheKey md5 ns key
  match lookupKey st.l1 ck with
  | some e =>
    if e.expiresAt > now then (some e.value, st)
    else IntelligentCache.getL2Phase { st with l1 := removeKey st.l1 ck } ns ck now
  | none => IntelligentCache.getL2Phase st ns ck now

/-- `set` (lines 99–111): write to L1 immediately with the fast-tier TTL,
mark the namespace dirty, and schedule a debounced persisted write when no
timer is pending (lines 200–212). -/
def IntelligentCache.set (md5 : String → String) (st : CacheState V) (ns : CacheNamespace)
    (key : String) (v : V) (now : Nat) : CacheState V :=
  let ck := cacheKey md5 ns key
  { st with
    l1 := setAssoc st.l1 ck ⟨v, now + L1_TTLS ns⟩
    l2Dirty := insertNs st.l2Dirty ns
    l2Timers := if st.l2Timers.contains ns then st.l2Timers else insertNs st.l2Timers ns }

/-- `invalidate` (lines 116–132): drop every L1 key of the namespace
(`key.startsWith(namespace + ":")`, i.e. first component equal), delete the
persisted file, and unmark `l2Loaded`. Pending dirty flags and timers are
left untouched, as in the source. -/
def IntelligentCache.invalidate (st : CacheState V) (ns : CacheNamespace) : CacheState V :=
  { st with
    l1 := st.l1.filter fun p => !(p.1.1 = ns : Bool)
    disk := fun n => if n = ns then .missing else st.disk n
    l2Loaded := st.l2Loaded.filter fun n => !(n = ns : Bool) }

/-- The existing persisted contents read back by the flush (lines 217–225):
a missing or malformed file, or a wrong version tag, reads as empty. -/
def flushExisting (st : CacheState V) (ns : CacheNamespace) : DiskCacheFormat V :=
  match st.disk ns with
  | .file f => if f.version = 1 then f else ⟨1, []⟩
  | _ => ⟨1, []⟩

/-- Merge condition of the flush (line 231): an L1 entry is merged when its
key belongs to the namespace and it has not yet expired. -/
def flushMerges (ns : CacheNamespace) (now : Nat) (p : CKey × CacheEntry V) : Bool :=
  (p.1.1 = ns : Bool) && now < p.2.expiresAt

/-- `flushL2` (lines 214–251): read the existing file, merge every
currently-unexpired L1 entry of the namespace with the fresh persisted-tier
expiry `now + L2_TTLS[namespace]`, prune everything already expired, write
back as one unit. -/
def IntelligentCache.flushL2 (st : CacheState V) (ns : CacheNamespace) (now : Nat) : CacheState V :=
  let existing := flushExisting st ns
  let merged := st.l1.foldl
    (fun acc p =>
      if flushMerges ns now p then setAssoc acc p.1 ⟨p.2.value, now + L2_TTLS ns⟩ else acc)
    existing.entries
  let pruned := merged.filter fun q => now < q.2.expiresAt
  { st with disk := fun n => if n = ns then .file ⟨1, pruned⟩ else st.disk n }

/-- The debounce timer callback (lines 203–209): clear the timer; if the
namespace is still dirty, clear the dirty flag and flush. -/
def IntelligentCache.l2TimerFire (st : CacheState V) (ns : CacheNamespace) (now : Nat) : CacheState V :=
  let st1 := { st with l2Timers := st.l2Timers.filter fun n => !(n = ns : Bool) }
  if st1.l2Dirty.contains ns then
    IntelligentCache.flushL2
      { st1 with l2Dirty := st1.l2Dirty.filter fun n => !(n = ns : Bool) } ns now
  else st1

/-! ## JS value semantics used by the defensive field mapping

The adapters read fields off untyped parsed values. Property access on
`null`/`undefined` throws a `TypeError`; on any other non-object it yields
`undefined` (no claim touches built-in properties such as `length`). `??`
falls through on `null`/`undefined` only. -/

/-- A JS value as seen by the adapters: a parsed JSON value or `undefined`. -/
inductive JSVal where
  | undefined
  | val (j : Json)

/-- Is the value `null` or `undefined` (the `??` / `!= null` test)? -/
def jsNullish : JSVal → Bool
  | .undefined => true
  | .val .null => true
  | _ => false

/-- Property access `v[name]` (throws on `null`/`undefined`). -/
def jsField (v : JSVal) (name : String) : Except JsErr JSVal :=
  match v with
  | .undefined => .error (.typeError "cannot read properties of undefined")
  | .val .null => .error (.typeError "cannot read properties of null")
  | .val (.obj fields) =>
    .ok (match fields.lookup name with
         | some j => .val j
         | none => .undefined)
  | .val _ => .ok .undefined

/-- `s.a ?? s.b ?? ...`: first non-nullish among the named fields,
`undefined` when all are nullish. -/
def jsFieldChain (s : JSVal) : List String → Except JsErr JSVal
  | [] => .ok .undefined
  | n :: rest => do
    let v ← jsField s n
    if jsNullish v then jsFieldChain s rest else .ok v

/-- Is a JSON number lexeme zero (mantissa holds no digit 1–9)? -/
def jsNumIsZero (lex : String) : Bool :=
  (lex.toList.takeWhile fun c => !(c == 'e' || c == 'E')).all
    fun c => !('1' ≤ c && c ≤ '9')

mutual

/-- `String(j)` for a parsed JSON value (number lexemes are kept as scanned;
engine float canonicalisation is irrelevant to every claim). -/
def jsStringOfJson : Json → String
  | .null => "null"
  | .bool b => if b then "true" else "false"
  | .num lex => lex
  | .str s => s
  | .arr es => jsStringOfArr es true
  | .obj _ => "[object Object]"

/-- Array `toString`: elements joined by commas, `null` rendering empty; the
flag marks the first element (no separator before it). -/
def jsStringOfArr : JsonArr → Bool → String
  | .nil, _ => ""
  | .cons j js, first =>
    (if first then "" else ",") ++
      (match j with
       | .null => ""
       | j => jsStringOfJson j) ++ jsStringOfArr js false

end

/-- `String(v)`. -/
def jsString : JSVal → String
  | .undefined => "undefined"
  | .val j => jsStringOfJson j

/-- JS truthiness of a value. -/
def jsTruthy : JSVal → Bool
  | .undefined => false
  | .val .null => false
  | .val (.bool b) => b
  | .val (.num lex) => !(jsNumIsZero lex)
  | .val (.str s) => !(s == "")
  | .val (.arr _) => true
  | .val (.obj _) => true

/-- Truthiness of an optional-string field of a normalized record
(`undefined` and the empty string are falsy). -/
def optTruthy : Option String → Bool
  | none => false
  | some s => !(s == "")

/-! ## Normalized records and the external query adapters -/

/-- `SessionMeta` (context-builder.ts, lines 37–45). -/
structure SessionMeta where
  id : String
  tool : String
  project : String
  branch : Option String
  startedAt : String
  duration : Option String
  summary : Option String
deriving DecidableEq, Repr

/-- `KBMatch` (lines 47–51). -/
structure KBMatch where
  id : String
  category : Option String
  text : String
deriving DecidableEq, Repr

/-- `CachedContext` (lines 53–56): the 60-second session memo. -/
structure CachedContext where
  sessions : List SessionMeta
  fetchedAt : Nat

/-- `ContextDepth` (line 35). -/
inductive ContextDepth where
  | minimal
  | standard
  | deep
deriving DecidableEq, Repr

/-- Session-memo TTL (line 63). -/
def CACHE_TTL_MS : Nat := 60000

/-- Per-query hard ceiling (line 73). -/
def QUERY_TIMEOUT_MS : Nat := 2000

/-- The collaborator's reply shape (tribe-runner.ts, lines 17–21). -/
structure RunResult where
  stdout : String
  stderr : String
  exitCode : Int
deriving DecidableEq, Repr

/-- An asynchronous operation, by its settle time (none = never settles)
and its eventual outcome (a rejected promise is an `error` outcome). -/
structure AsyncOp (α : Type) where
  settles : Option Nat
  outcome : Except JsErr α

/-- What a bounded call observably yields: the value awaited and the
wall-clock milliseconds the await took. -/
structure TimedResult (α : Type) where
  result : Except JsErr α
  retMs : Nat

/-- `withTimeout` (context-builder.ts, lines 75–89): race the operation
against a deadline timer that resolves to the fallback. When the operation
settles strictly before the ceiling its outcome wins the race (a rejection
propagates); otherwise the timer resolves the fallback at the ceiling. The
`finally` block clears only the timer; the model is a pure function of the
operation, which is inspected but never altered — the underlying operation
is abandoned, not cancelled. -/
def withTimeout (op : AsyncOp α) (ms : Nat) (fallback : α) : TimedResult α :=
  match op.settles with
  | some t => if t < ms then ⟨op.outcome, t⟩ else ⟨.ok fallback, ms⟩
  | none => ⟨.ok fallback, ms⟩

/-- The environment of one assembly call: the collaborator boundary of §6
(CLI reachability, the subprocess reply per argument list and when it
settles, `Date.parse`) plus the current instant. -/
structure Env where
  installed : Bool
  runResult : List String → RunResult
  runSettles : List String → Option Nat
  dateParse : String → Option Int
  now : Nat

/-- The `run(args, ...)` promise as an asynchronous operation. Its outcome is
always a fulfilment: in tribe-runner.ts the `execFile` callback rejects only
when an `AbortSignal` was supplied and aborted, and the call sites inside
this core never pass a signal, so every path reaches
`resolve({stdout, stderr, exitCode})`. -/
def runOp (env : Env) (args : List String) : AsyncOp RunResult :=
  ⟨env.runSettles args, .ok (env.runResult args)⟩

/-- Effectful map in the `Except` monad, in call order. -/
def exMapM (f : α → Except ε β) : List α → Except ε (List β)
  | [] => .ok []
  | a :: as => do
    let b ← f a
    let bs ← exMapM f as
    .ok (b :: bs)

/-- The argument list of the recent-sessions query (lines 94–105). -/
def sessionsQueryArgs (depth : ContextDepth) : List String :=
  let limit := match depth with
    | .minimal => "5"
    | .standard => "10"
    | .deep => "20"
  let timeRange := if depth = .deep then "7d" else "24h"
  ["query", "sessions", "--all", "--limit", limit, "--time-range", timeRange,
   "--format", "json"]

/-- The field reconciliation of one raw session item (lines 115–127);
property access may throw when the item is `null`, which the enclosing
`try` of `fetchRecentSessions` catches. -/
def normalizeSession (item : Json) : Except JsErr SessionMeta := do
  let s := JSVal.val item
  let idv ← jsFieldChain s ["id", "conversation_id", "session_id"]
  let toolv ← jsFieldChain s ["tool", "provider"]
  let projv ← jsFieldChain s ["project", "project_path"]
  let branchv ← jsField s "branch"
  let startedv ← jsFieldChain s ["started_at", "startedAt", "first_event", "timestamp"]
  let dmv ← jsField s "duration_minutes"
  let durv ← jsField s "duration"
  let summaryv ← jsField s "summary"
  .ok
    { id := jsString (if jsNullish idv then .val (.str "") else idv)
      tool := jsString (if jsNullish toolv then .val (.str "unknown") else toolv)
      project := jsString (if jsNullish projv then .val (.str "") else projv)
      branch := if jsTruthy branchv then some (jsString branchv) else none
      startedAt := jsString (if jsNullish startedv then .val (.str "") else startedv)
      duration :=
        if !(jsNullish dmv) then some (jsString dmv ++ "m")
        else if jsTruthy durv then some (jsString durv) else none
      summary := if jsTruthy summaryv then some (jsString summaryv) else none }

/-- `fetchRecentSessions` (lines 91–133): serve the one-minute memo when
fresh, otherwise run the bounded query; a non-zero exit or any parse/shape
failure degrades to no sessions; a successful parse refreshes the memo. -/
def fetchRecentSessions (env : Env) (memo : Option CachedContext) (depth : ContextDepth) :
    Except JsErr (List SessionMeta × Option CachedContext) :=
  match memo with
  | some c =>
    if env.now - c.fetchedAt < CACHE_TTL_MS then .ok (c.sessions, memo)
    else fetchRecentSessionsFresh env memo depth
  | none => fetchRecentSessionsFresh env memo depth
where
  /-- The non-memo path of `fetchRecentSessions`. -/
  fetchRecentSessionsFresh (env : Env) (memo : Option CachedContext) (depth : ContextDepth) :
      Except JsErr (List SessionMeta × Option CachedContext) := do
    let result ← (withTimeout (runOp env (sessionsQueryArgs depth)) QUERY_TIMEOUT_MS
      ⟨"[]", "", 1⟩).result
    if result.exitCode ≠ 0 then .ok ([], memo)
    else
      match (do
        let raw ← extractJSON result.stdout
        let items := match raw with
          | .arr es => es.toList
          | _ => []
        exMapM normalizeSession items : Except JsErr (List SessionMeta)) with
      | .ok sessions => .ok (sessions, some ⟨sessions, env.now⟩)
      | .error _ => .ok ([], memo)

/-- The argument list of one knowledge search (line 202). -/
def kbSearchArgs (term : String) : List String :=
  ["-beta", "kb", "search", term, "--format", "json"]

/-- The field reconciliation of one raw knowledge entry (lines 214–224). -/
def normalizeKBEntry (entry : Json) : Except JsErr KBMatch := do
  let e := JSVal.val entry
  let docRaw ← jsField e "document"
  let doc := if jsNullish docRaw then JSVal.val (.obj .nil) else docRaw
  let did ← jsField doc "id"
  let idv ← if jsNullish did then jsField e "id" else .ok did
  let dcat ← jsField doc "category"
  let catv ← if jsNullish dcat then jsField e "category" else .ok dcat
  let dtext ← jsField doc "content"
  let textv ← if jsNullish dtext then jsFieldChain e ["snippet", "content", "text"]
              else .ok dtext
  .ok
    { id := jsString (if jsNullish idv then .val (.str "") else idv)
      category := if jsTruthy catv then some (jsString catv) else none
      text := jsString (if jsNullish textv then .val (.str "") else textv) }

/-- `runKBSearch` (lines 200–229): bounded query, non-zero exit degrades to
empty, parse/shape failures degrade to empty, at most the first five raw
entries are normalized. -/
def runKBSearch (env : Env) (term : String) : Except JsErr (List KBMatch) := do
  let result ← (withTimeout (runOp env (kbSearchArgs term)) QUERY_TIMEOUT_MS
    ⟨"[]", "", 1⟩).result
  if result.exitCode ≠ 0 then .ok []
  else
    match (do
      let raw ← extractJSON result.stdout
      let items := match raw with
        | .arr es => es.toList
        | _ => []
      exMapM normalizeKBEntry (items.take 5) : Except JsErr (List KBMatch)) with
    | .ok ms => .ok ms
    | .error _ => .ok []

/-! ## The multi-keyword merge of `searchKB` (lines 242–259) -/

/-- One step of the frequency map (lines 244–253): an already-seen doc id
has its count bumped (keeping the first-seen match and its position), a new
id is appended with count 1. -/
def bumpFreq : List (KBMatch × Nat) → KBMatch → List (KBMatch × Nat)
  | [], m => [(m, 1)]
  | q :: rest, m =>
    if q.1.id = m.id then (q.1, q.2 + 1) :: rest
    else q :: bumpFreq rest m

/-- Folding one per-term result list into the frequency map. -/
def kbDocFold (acc : List (KBMatch × Nat)) (results : List KBMatch) : List (KBMatch × Nat) :=
  results.foldl bumpFreq acc

/-- Descending-count order of the comparator `(a, b) => b.freq - a.freq`. -/
def freqGe (a b : KBMatch × Nat) : Bool :=
  Nat.ble b.2 a.2

/-- The merge of `searchKB` (lines 242–259): count ids across all per-term
result lists, sort by count descending (stable), truncate to the top 5. -/
def mergeKBResults (allResults : List (List KBMatch)) : List KBMatch :=
  let docMap := allResults.foldl kbDocFold []
  ((stableSortBy freqGe docMap).take 5).map Prod.fst

/-- How often id `i` occurs across a flat list of matches. -/
def occCount (flat : List KBMatch) (i : String) : Nat :=
  (flat.filter fun m => m.id == i).length

/-- The number of distinct term-searches whose result list mentions id `i`
(the ranking measure named by the specification). -/
def termsProducing (allResults : List (List KBMatch)) (i : String) : Nat :=
  (allResults.filter fun l => l.any fun m => m.id == i).length

/-- The stored count of id `i` in a frequency map, if present. -/
def freqOfId : List (KBMatch × Nat) → String → Option Nat
  | [], _ => none
  | q :: rest, i => if q.1.id = i then some q.2 else freqOfId rest i

/-- The running invariant of the frequency fold: keys are distinct ids and
the stored count of every id equals its occurrence count so far. -/
def InvKB (flat : List KBMatch) (acc : List (KBMatch × Nat)) : Prop :=
  ((acc.map fun p => p.1.id).Nodup) ∧
  ∀ i, freqOfId acc i = if occCount flat i = 0 then none else some (occCount flat i)

/-- `searchKB` (lines 231–267): serve the cache when it holds the query,
otherwise extract up to three keywords, run one bounded search per keyword,
merge by frequency, and store the merged list in the `kb` namespace under
the original query — only when it is non-empty. -/
def searchKB (md5 : String → String) (env : Env) (query : String)
    (st : CacheState (List KBMatch)) :
    Except JsErr (List KBMatch × CacheState (List KBMatch)) := do
  let gr := IntelligentCache.get md5 st .kb query env.now
  match gr.1 with
  | some cached => .ok (cached, gr.2)
  | none =>
    let keywords := extractSearchKeywords query 3
    let allResults ← exMapM (runKBSearch env) keywords
    let merged := mergeKBResults allResults
    let st' := if 0 < merged.length
      then IntelligentCache.set md5 gr.2 .kb query merged env.now
      else gr.2
    .ok (merged, st')

/-! ## Formatting (lines 273–323) and the assembler (lines 335–375) -/

/-- `lines.join(sep)`. -/
def joinSep (sep : String) : List String → String
  | [] => ""
  | [x] => x
  | x :: xs => x ++ sep ++ joinSep sep xs

/-- `formatTimestamp` (lines 273–290): relative rendering with `"recently"`
for empty, unparsable or future timestamps. -/
def formatTimestamp (dateParse : String → Option Int) (now : Nat) (iso : String) : String :=
  if iso = "" then "recently"
  else
    match dateParse iso with
    | none => "recently"
    | some t =>
      let diffMs : Int := (now : Int) - t
      let diffMin : Int := Int.fdiv diffMs 60000
      if diffMin < 0 then "recently"
      else if diffMin < 60 then toString diffMin ++ "m ago"
      else
        let diffHours := Int.fdiv diffMin 60
        if diffHours < 24 then toString diffHours ++ "h ago"
        else toString (Int.fdiv diffHours 24) ++ "d ago"

/-- `formatSessions` (lines 292–304). -/
def formatSessions (dateParse : String → Option Int) (now : Nat)
    (sessions : List SessionMeta) (depth : ContextDepth) : String :=
  match sessions with
  | [] => ""
  | _ =>
    let lines := sessions.map fun s =>
      let time := formatTimestamp dateParse now s.startedAt
      let dur := match s.duration with
        | some d => if d ≠ "" then " (" ++ d ++ ")" else ""
        | none => ""
      let branch := match s.branch with
        | some b => if b ≠ "" then ", branch: " ++ b else ""
        | none => ""
      let summary := match depth, s.summary with
        | .deep, some sm => if sm ≠ "" then "\n    " ++ sm else ""
        | _, _ => ""
      "- " ++ time ++ ": " ++ s.tool ++ " on " ++
        (if s.project = "" then "unknown project" else s.project) ++ dur ++ branch ++ summary
    "Recent Activity:\n" ++ joinSep "\n" lines

/-- The preview truncation of `formatKBResults` (line 311):
`r.text.length > 200 ? r.text.slice(0, 200) + "..." : r.text`. -/
def kbPreviewText (t : String) : String :=
  if t.length > 200 then jsSliceTo t 200 ++ "..." else t

/-- `formatKBResults` (lines 306–316). -/
def formatKBResults (results : List KBMatch) : String :=
  match results with
  | [] => ""
  | _ =>
    let lines := results.map fun r =>
      let cat := match r.category with
        | some c => if c ≠ "" then "[" ++ c ++ "] " else ""
        | none => ""
      "- " ++ cat ++ kbPreviewText r.text
    "Relevant Knowledge:\n" ++ joinSep "\n" lines

/-- `detectActiveProject` (lines 318–323). -/
def detectActiveProject (sessions : List SessionMeta) : String :=
  match sessions with
  | [] => ""
  | recent :: _ =>
    let branch := match recent.branch with
      | some b => if b ≠ "" then " (branch: " ++ b ++ ")" else ""
      | none => ""
    if recent.project = "" then "" else "Active Project: " ++ recent.project ++ branch

/-- `buildContext` (lines 335–375): bail out when the CLI is not installed;
fetch recent sessions, and additionally search the knowledge base when the
depth allows it and the prompt is long enough; return `none` rather than an
empty wrapper. The session memo and the cache state are threaded explicitly
(module-level state in the source); the two queries run concurrently in the
source but touch disjoint state, so sequential composition is faithful. -/
def buildContext (md5 : String → String) (env : Env) (memo : Option CachedContext)
    (st : CacheState (List KBMatch)) (prompt : String) (depth : ContextDepth) :
    Except JsErr (Option String × Option CachedContext × CacheState (List KBMatch)) := do
  if !env.installed then .ok (none, memo, st)
  else
    let (sessions, memo') ← fetchRecentSessions env memo depth
    let (kbResults, st') ←
      if depth ≠ .minimal ∧ 5 ≤ prompt.length then searchKB md5 env prompt st
      else .ok ([], st)
    if sessions.isEmpty ∧ kbResults.isEmpty then .ok (none, memo', st')
    else
      let sessionsBlock := formatSessions env.dateParse env.now sessions depth
      let kbBlock := formatKBResults kbResults
      let projectLine := detectActiveProject sessions
      let parts :=
        (if sessionsBlock ≠ "" then [sessionsBlock] else []) ++
        (if kbBlock ≠ "" then [kbBlock] else []) ++
        (if projectLine ≠ "" then [projectLine] else [])
      if parts.isEmpty then .ok (none, memo', st')
      else .ok (some ("<tribe-context>\n" ++ joinSep "\n\n" parts ++ "\n</tribe-context>"),
                memo', st')

/-! ## Concrete instances used by witnesses and counterexamples -/

/-- An arbitrary concrete digest function for witnesses (the theorems hold
for every digest function). -/
def md5id : String → String := fun s => s

/-- A 300-character upstream document body. -/
def kbLongText : String := String.mk (List.replicate 300 'a')

/-- A raw knowledge entry whose document content is 300 characters long. -/
def kbLongEntry : Json :=
  .obj (JsonObj.ofList
    [("document", .obj (JsonObj.ofList [("id", .str "d1"), ("content", .str kbLongText)]))])

/-- The CLI reply carrying that entry, as a JSON text. -/
def kbLongStdout : String :=
  String.mk ('[' :: lbraceChar :: ("\"document\":".toList ++ lbraceChar ::
    ("\"id\":\"d1\",\"content\":\"".toList ++ List.replicate 300 'a' ++
      ('"' :: rbraceChar :: rbraceChar :: [']']))))

/-- An environment whose knowledge search returns that entry instantly. -/
def envLong : Env :=
  { installed := true
    runResult := fun _ => ⟨kbLongStdout, "", 0⟩
    runSettles := fun _ => some 0
    dateParse := fun _ => none
    now := 0 }

/-- An empty cache state over an arbitrary value type. -/
def emptyCacheState (V : Type) : CacheState V :=
  ⟨[], fun _ => .missing, [], [], []⟩

/-- A state with one fast-tier `kb` entry and one unrelated persisted entry. -/
def stFlushW : CacheState Nat :=
  ⟨[((CacheNamespace.kb, "a"), ⟨1, 100⟩)],
   fun n => if n = .kb then .file ⟨1, [((CacheNamespace.kb, "b"), ⟨2, 200⟩)]⟩ else .missing,
   [], [], []⟩

/-- A state with one live fast-tier `kb` entry. -/
def stGetW : CacheState Nat :=
  ⟨[((CacheNamespace.kb, "k"), ⟨42, 100⟩)], fun _ => .missing, [], [], []⟩

/-- An environment whose knowledge search finds nothing. -/
def envEmptyKB : Env :=
  { installed := true
    runResult := fun _ => ⟨"[]", "", 0⟩
    runSettles := fun _ => some 0
    dateParse := fun _ => none
    now := 1000 }

/-- An environment whose knowledge search finds one document. -/
def envOneKB : Env :=
  { installed := true
    runResult := fun _ =>
      ⟨String.mk ('[' :: lbraceChar :: ("\"id\":\"d1\",\"content\":\"c\"".toList ++
        (rbraceChar :: [']']))), "", 0⟩
    runSettles := fun _ => some 0
    dateParse := fun _ => none
    now := 2000 }

/-- Two distinct matches used by the merge-ranking counterexample. -/
def kbMatchX : KBMatch := ⟨"x", none, "tx"⟩

/-- See `kbMatchX`. -/
def kbMatchY : KBMatch := ⟨"y", none, "ty"⟩

/-! # Theorems

Helper lemmas come first; each claim is then settled by one named theorem
(with its witness or counterexample where required). -/

/-! ## Generic list and association-list lemmas -/

theorem lookupKey_mem [DecidableEq κ] {l : List (κ × β)} {k : κ} {b : β}
    (h : lookupKey l k = some b) : (k, b) ∈ l := by
  induction l with
  | nil => simp [lookupKey] at h
  | cons p rest ih =>
    by_cases hp : p.1 = k
    · obtain ⟨p1, p2⟩ := p
      simp only at hp
      subst hp
      simp [lookupKey] at h
      subst h
      exact List.mem_cons_self _ _
    · simp [lookupKey, hp] at h
      exact List.mem_cons_of_mem _ (ih h)

theorem setAssoc_lookup_self [DecidableEq κ] (l : List (κ × β)) (k : κ) (v : β) :
    lookupKey (setAssoc l k v) k = some v := by
  induction l with
  | nil => simp [setAssoc, lookupKey]
  | cons p rest ih =>
    by_cases hp : p.1 = k
    · simp [setAssoc, hp, lookupKey]
    · simp [setAssoc, hp, lookupKey, ih]

theorem setAssoc_lookup_ne [DecidableEq κ] (l : List (κ × β)) (k k' : κ) (v : β)
    (h : k' ≠ k) : lookupKey (setAssoc l k v) k' = lookupKey l k' := by
  induction l with
  | nil => simp [setAssoc, lookupKey, Ne.symm h]
  | cons p rest ih =>
    by_cases hp : p.1 = k
    · simp [setAssoc, hp, lookupKey, Ne.symm h]
    · by_cases hp' : p.1 = k'
      · simp [setAssoc, hp, lookupKey, hp', h]
      · simp [setAssoc, hp, lookupKey, hp', ih]

theorem lookupKey_filter_none [DecidableEq κ] (l : List (κ × β)) (k : κ)
    (keep : κ × β → Bool) (h : ∀ p : κ × β, p.1 = k → keep p = false) :
    lookupKey (l.filter keep) k = none := by
  induction l with
  | nil => simp [lookupKey]
  | cons p rest ih =>
    by_cases hp : p.1 = k
    · simp [List.filter, h p hp, ih]
    · cases hkeep : keep p <;> simp [List.filter, hkeep, lookupKey, hp, ih]

theorem lookupKey_filter_keep [DecidableEq κ] {l : List (κ × β)} {k : κ} {b : β}
    (keep : κ × β → Bool) (h : lookupKey l k = some b) (hk : keep (k, b) = true) :
    lookupKey (l.filter keep) k = some b := by
  induction l with
  | nil => simp [lookupKey] at h
  | cons p rest ih =>
    by_cases hp : p.1 = k
    · simp [lookupKey, hp] at h
      have hpk : p = (k, b) := by
        cases p
        simp_all
      simp [List.filter, hpk, hk, lookupKey]
    · cases hkeep : keep p <;> simp [List.filter, hkeep, lookupKey, hp] at h ⊢ <;>
        exact ih (by simpa [lookupKey, hp] using h)

/-! ## Claim C2: the bounded query executor -/

/-- Claim C2: `withTimeout` returns the operation's settled outcome whenever
the operation settles strictly before the millisecond ceiling, and otherwise
— including when the operation never settles — returns the caller-supplied
fallback exactly at the ceiling; the observed waiting time never exceeds the
ceiling. The model is a pure function of the operation, so the operation
itself is read but never cancelled. -/
theorem withTimeout_spec (op : AsyncOp α) (ms : Nat) (fallback : α) :
    (∀ t, op.settles = some t → t < ms →
      (withTimeout op ms fallback).result = op.outcome ∧
      (withTimeout op ms fallback).retMs = t) ∧
    ((op.settles = none ∨ ∃ t, op.settles = some t ∧ ms ≤ t) →
      (withTimeout op ms fallback).result = .ok fallback ∧
      (withTimeout op ms fallback).retMs = ms) ∧
    (withTimeout op ms fallback).retMs ≤ ms := by
  obtain ⟨sett, out⟩ := op
  refine ⟨?_, ?_, ?_⟩
  · intro t ht hlt
    cases sett with
    | none => simp at ht
    | some t' =>
      simp only [Option.some.injEq] at ht
      subst ht
      simp [withTimeout, hlt]
  · rintro (h | ⟨t, ht, hge⟩)
    · subst h
      simp [withTimeout]
    · simp only at ht
      subst ht
      simp [withTimeout, Nat.not_lt.mpr hge]
  · cases sett with
    | none => simp [withTimeout]
    | some t =>
      by_cases hlt : t < ms <;> simp [withTimeout, hlt] <;> omega

/-- Witness for C2: a never-settling operation yields the fallback at the
ceiling. -/
theorem withTimeout_spec_witness :
    (withTimeout (⟨none, Except.ok 0⟩ : AsyncOp Nat) 5 7).result = .ok 7 ∧
    (withTimeout (⟨none, Except.ok 0⟩ : AsyncOp Nat) 5 7).retMs = 5 :=
  (withTimeout_spec ⟨none, Except.ok 0⟩ 5 7).2.1 (Or.inl rfl)

/-! ## Claim C6: tolerant JSON extraction -/

theorem any_dropWhile_eq {l : List Char} {p q : Char → Bool}
    (h : ∀ c, p c = true → q c = false) : (l.dropWhile p).any q = l.any q := by
  induction l with
  | nil => rfl
  | cons c cs ih =>
    cases hc : p c
    · simp [List.dropWhile, hc]
    · simp [List.dropWhile, hc, ih, List.any_cons, h c hc]

theorem any_jsTrimList {l : List Char} {q : Char → Bool}
    (h : ∀ c, isJsWsChar c = true → q c = false) : (jsTrimList l).any q = l.any q := by
  unfold jsTrimList
  rw [List.any_reverse, any_dropWhile_eq h, List.any_reverse, any_dropWhile_eq h]

theorem ws_not_bracket (c : Char) (h : isJsWsChar c = true) :
    (c == '[' || c == lbraceChar) = false := by
  cases hb : (c == '[' || c == lbraceChar)
  · rfl
  · exfalso
    rcases Bool.or_eq_true_iff.mp hb with h1 | h1
    · rw [show c = '[' from by simpa using h1] at h
      simp [isJsWsChar] at h
    · rw [show c = lbraceChar from by simpa using h1] at h
      simp [isJsWsChar, lbraceChar] at h

theorem jsIndexOfAux_eq_neg {l : List Char} {c : Char} (h : c ∉ l) (i : Nat) :
    jsIndexOfAux l c i = -1 := by
  induction l generalizing i with
  | nil => rfl
  | cons x xs ih =>
    have hx : ¬x = c := fun he => h (he ▸ List.mem_cons_self x xs)
    simp only [jsIndexOfAux, hx, if_false]
    exact ih (fun hm => h (List.mem_cons_of_mem _ hm)) _

theorem jsIndexOfAux_nonneg {l : List Char} {c : Char} (h : c ∈ l) (i : Nat) :
    0 ≤ jsIndexOfAux l c i := by
  induction l generalizing i with
  | nil => simp at h
  | cons x xs ih =>
    by_cases hx : x = c
    · simp [jsIndexOfAux, hx]
    · have hm : c ∈ xs := by
        rcases List.mem_cons.mp h with h1 | h1
        · exact absurd h1.symm hx
        · exact h1
      simp only [jsIndexOfAux, hx, if_false]
      exact ih hm _

theorem mapError_ne_noJson (x : Except String Json) :
    x.mapError JsErr.syntaxParse ≠ .error .syntaxNoJson := by
  cases x <;> simp [Except.mapError]

/-- Claim C6, amended: `extractJSON` raises its typed
`SyntaxError("No JSON found in output")` exactly when the input contains no
`[` and no opening brace; when a bracket is present it parses from the first
one, which can itself still raise a JSON syntax error (see the
counterexample), but never the typed no-JSON error. -/
theorem extractJSON_noJson_iff_noBracket (s : String) :
    extractJSON s = .error .syntaxNoJson ↔ jsStrContainsBracket s = false := by
  have hany : ((jsTrim s).toList.any fun c => c == '[' || c == lbraceChar) =
      (s.toList.any fun c => c == '[' || c == lbraceChar) :=
    any_jsTrimList (fun c h => ws_not_bracket c h)
  unfold jsStrContainsBracket
  cases hb : s.toList.any fun c => c == '[' || c == lbraceChar
  · -- no bracket anywhere: the trimmed text has none either
    have htr : ((jsTrim s).toList.any fun c => c == '[' || c == lbraceChar) = false :=
      hany.trans hb
    have hnomem : ∀ c ∈ (jsTrim s).toList, (c == '[' || c == lbraceChar) = false := by
      intro c hc
      cases hcb : (c == '[' || c == lbraceChar)
      · rfl
      · exact absurd (htr ▸ List.any_eq_true.mpr ⟨c, hc, hcb⟩) Bool.false_ne_true
    have hnoLB : '[' ∉ (jsTrim s).toList := fun hm => by
      have := hnomem _ hm
      simp at this
    have hnoBR : lbraceChar ∉ (jsTrim s).toList := fun hm => by
      have := hnomem _ hm
      simp at this
    have hsw : (startsWithChar (jsTrim s) '[' || startsWithChar (jsTrim s) lbraceChar) = false := by
      unfold startsWithChar
      cases hl : (jsTrim s).toList with
      | nil => rfl
      | cons c0 rest =>
        have hc0 : c0 ∈ (jsTrim s).toList := hl ▸ List.mem_cons_self _ _
        simpa using hnomem _ hc0
    have ha : jsIndexOf (jsTrim s) '[' = -1 := jsIndexOfAux_eq_neg hnoLB 0
    have ho : jsIndexOf (jsTrim s) lbraceChar = -1 := jsIndexOfAux_eq_neg hnoBR 0
    simp only [extractJSON, hsw, Bool.false_eq_true, if_false, ha, ho]
    norm_num
  · -- at least one bracket: the result is a parse, never the typed no-JSON error
    simp only [Bool.true_eq_false, iff_false]
    intro hres
    have htr : ((jsTrim s).toList.any fun c => c == '[' || c == lbraceChar) = true :=
      hany.trans hb
    obtain ⟨c, hc, hcb⟩ := List.any_eq_true.mp htr
    have hnn : 0 ≤ jsIndexOf (jsTrim s) '[' ∨ 0 ≤ jsIndexOf (jsTrim s) lbraceChar := by
      rcases Bool.or_eq_true_iff.mp hcb with h1 | h1
      · exact Or.inl (jsIndexOfAux_nonneg (by rwa [show c = '[' from by simpa using h1] at hc) 0)
      · exact Or.inr (jsIndexOfAux_nonneg (by rwa [show c = lbraceChar from by simpa using h1] at hc) 0)
    cases hsw : (startsWithChar (jsTrim s) '[' || startsWithChar (jsTrim s) lbraceChar)
    · simp only [extractJSON, hsw, Bool.false_eq_true, if_false] at hres
      set ai := jsIndexOf (jsTrim s) '[' with hai
      set oi := jsIndexOf (jsTrim s) lbraceChar with hoi
      by_cases hcond : ai ≥ 0 ∧ oi ≥ 0
      · rw [if_pos hcond] at hres
        rw [if_neg (by omega : ¬(ai ⊓ oi < 0))] at hres
        exact mapError_ne_noJson _ hres
      · rw [if_neg hcond] at hres
        rw [if_neg (by omega : ¬(ai ⊔ oi < 0))] at hres
        exact mapError_ne_noJson _ hres
    · simp only [extractJSON, hsw, if_true] at hres
      exact mapError_ne_noJson _ hres

/-- Counterexample for C6 as stated: the input `"["` contains a bracket, yet
`extractJSON` still raises (the `JSON.parse` step fails on the truncated
payload). -/
theorem extractJSON_has_bracket_cex :
    jsStrContainsBracket "[" = true ∧ (extractJSON "[").isOk = false := by
  constructor
  · decide
  · decide

/-! ## Claim C7: the term extractor -/

theorem upsertMax_keys (acc : List (String × Nat)) (p : String × Nat) :
    (upsertMax acc p).map Prod.fst =
      if p.1 ∈ acc.map Prod.fst then acc.map Prod.fst else acc.map Prod.fst ++ [p.1] := by
  induction acc with
  | nil => simp [upsertMax]
  | cons q rest ih =>
    by_cases h : q.1 = p.1
    · simp [upsertMax, h]
    · have h' : ¬p.1 = q.1 := fun he => h he.symm
      simp only [upsertMax, h, if_false, List.map_cons, List.mem_cons, h', false_or, ih]
      by_cases hm : p.1 ∈ rest.map Prod.fst
      · simp [hm]
      · simp [hm]

theorem upsertMax_ne_nil (acc : List (String × Nat)) (p : String × Nat) :
    upsertMax acc p ≠ [] := by
  cases acc with
  | nil => simp [upsertMax]
  | cons q rest =>
    simp only [upsertMax]
    split <;> simp

theorem foldl_upsertMax_ne_nil (l : List (String × Nat)) :
    ∀ acc, acc ≠ [] → l.foldl upsertMax acc ≠ [] := by
  induction l with
  | nil => intro acc h; simpa
  | cons p rest ih =>
    intro acc _
    simpa using ih (upsertMax acc p) (upsertMax_ne_nil acc p)

theorem dedupMax_keys_nodup (l : List (String × Nat)) :
    ((dedupMax l).map Prod.fst).Nodup := by
  suffices h : ∀ acc : List (String × Nat), (acc.map Prod.fst).Nodup →
      ((l.foldl upsertMax acc).map Prod.fst).Nodup from h [] (by simp)
  induction l with
  | nil => intro acc hacc; simpa using hacc
  | cons p rest ih =>
    intro acc hacc
    simp only [List.foldl_cons]
    apply ih
    rw [upsertMax_keys]
    by_cases hm : p.1 ∈ acc.map Prod.fst
    · simpa [hm] using hacc
    · simp [hm, List.nodup_append, hacc]

theorem insertStable_perm (le : α → α → Bool) (a : α) (l : List α) :
    List.Perm (insertStable le a l) (a :: l) := by
  induction l with
  | nil => simp [insertStable]
  | cons b bs ih =>
    simp only [insertStable]
    split
    · exact (ih.cons b).trans (List.Perm.swap a b bs)
    · exact List.Perm.refl _

theorem foldl_insertStable_perm (le : α → α → Bool) :
    ∀ (l acc : List α), List.Perm (l.foldl (fun acc a => insertStable le a acc) acc) (l ++ acc) := by
  intro l
  induction l with
  | nil => intro acc; simp
  | cons a l ih =>
    intro acc
    simp only [List.foldl_cons, List.cons_append]
    exact ((ih _).trans (List.Perm.append_left l (insertStable_perm le a acc))).trans
      List.perm_middle

theorem stableSortBy_perm (le : α → α → Bool) (l : List α) :
    List.Perm (stableSortBy le l) l := by
  simpa using foldl_insertStable_perm le l []

/-- Claim C7, amended: for every requested count `N ≥ 1` and every non-empty
prompt, `extractSearchKeywords` returns between 1 and `N` terms with no
duplicates, and whenever no token survives the length/stop-word filtering it
returns the single-element list holding `prompt.trim().split(/\s+/)[0] || prompt`
— the first whitespace-delimited token of the raw input, or the raw input
itself when it has no such token. (The counterexample shows the claim fails
for `N = 0`.) -/
theorem extractSearchKeywords_spec (prompt : String) (n : Nat)
    (hne : prompt ≠ "") (hn : 1 ≤ n) :
    (1 ≤ (extractSearchKeywords prompt n).length ∧
     (extractSearchKeywords prompt n).length ≤ n ∧
     (extractSearchKeywords prompt n).Nodup) ∧
    (filteredWords prompt = [] →
      extractSearchKeywords prompt n = [firstRawToken prompt]) := by
  clear hne
  cases hw : filteredWords prompt with
  | nil => simp [extractSearchKeywords, hw, hn]
  | cons w ws =>
    refine ⟨⟨?_, ?_, ?_⟩, ?_⟩
    · -- at least one keyword survives
      simp only [extractSearchKeywords, hw]
      have hlen : (dedupMax (scoreWords (w :: ws))).length ≥ 1 := by
        have hne2 : dedupMax (scoreWords (w :: ws)) ≠ [] := by
          have : scoreWords (w :: ws) ≠ [] := by
            simp [scoreWords]
          unfold dedupMax
          cases hs : scoreWords (w :: ws) with
          | nil => exact absurd hs this
          | cons x xs =>
            simp only [List.foldl_cons]
            exact foldl_upsertMax_ne_nil xs _ (upsertMax_ne_nil [] x)
        exact Nat.one_le_iff_ne_zero.mpr (fun h0 => hne2 (List.length_eq_zero.mp h0))
      have hsl : (stableSortBy scoreGe (dedupMax (scoreWords (w :: ws)))).length =
          (dedupMax (scoreWords (w :: ws))).length :=
        (stableSortBy_perm _ _).length_eq
      simp only [List.length_take, List.length_map, hsl]
      omega
    · simp only [extractSearchKeywords, hw, List.length_take]
      omega
    · -- no duplicates
      simp only [extractSearchKeywords, hw]
      have hnd : ((dedupMax (scoreWords (w :: ws))).map Prod.fst).Nodup :=
        dedupMax_keys_nodup _
      have hperm : List.Perm
          ((stableSortBy scoreGe (dedupMax (scoreWords (w :: ws)))).map Prod.fst)
          ((dedupMax (scoreWords (w :: ws))).map Prod.fst) :=
        (stableSortBy_perm _ _).map Prod.fst
      exact ((hperm.nodup_iff).mpr hnd).sublist (List.take_sublist _ _)
    · intro h0
      exact absurd h0 (by simp)

/-- Witness for C7: a stop-word-only prompt falls back to its first raw
token, one single deduplicated term. -/
theorem extractSearchKeywords_spec_witness :
    (1 ≤ (extractSearchKeywords "the" 3).length ∧
     (extractSearchKeywords "the" 3).length ≤ 3 ∧
     (extractSearchKeywords "the" 3).Nodup) ∧
    (filteredWords "the" = [] →
      extractSearchKeywords "the" 3 = [firstRawToken "the"]) :=
  extractSearchKeywords_spec "the" 3 (by decide) (by decide)

/-- Counterexample for C7 as stated: for the non-empty prompt `"hello"` and
requested count `N = 0`, the extractor returns no terms at all. -/
theorem extractSearchKeywords_cex :
    ("hello" : String) ≠ "" ∧ extractSearchKeywords "hello" 0 = [] := by
  constructor
  · decide
  · decide

/-! ## Claims C3–C5: the two-tier cache -/

theorem L2_TTLS_pos (ns : CacheNamespace) : 0 < L2_TTLS ns := by
  cases ns <;> decide

theorem flushFold_lookup_nomerge {V : Type} (ns : CacheNamespace) (now : Nat)
    (l1 : List (CKey × CacheEntry V)) (ck : CKey) :
    ∀ acc : List (CKey × DiskEntry V),
    (∀ p ∈ l1, p.1 = ck → flushMerges ns now p = false) →
    lookupKey (l1.foldl
      (fun acc p => if flushMerges ns now p
        then setAssoc acc p.1 (⟨p.2.value, now + L2_TTLS ns⟩ : DiskEntry V) else acc) acc) ck =
      lookupKey acc ck := by
  induction l1 with
  | nil => intro acc _; rfl
  | cons q rest ih =>
    intro acc h
    simp only [List.foldl_cons]
    cases hq : flushMerges ns now q
    · simp only [Bool.false_eq_true, if_false]
      exact ih acc (fun p hp => h p (List.mem_cons_of_mem _ hp))
    · simp only [if_true]
      have hne : q.1 ≠ ck := by
        intro he
        rw [h q (List.mem_cons_self _ _) he] at hq
        exact Bool.noConfusion hq
      rw [ih _ (fun p hp => h p (List.mem_cons_of_mem _ hp))]
      exact setAssoc_lookup_ne _ _ _ _ (Ne.symm hne)

theorem flushFold_lookup_merged {V : Type} (ns : CacheNamespace) (now : Nat)
    (l1 : List (CKey × CacheEntry V)) (ck : CKey) (e : CacheEntry V) :
    ∀ acc : List (CKey × DiskEntry V),
    (l1.map Prod.fst).Nodup → (ck, e) ∈ l1 → flushMerges ns now (ck, e) = true →
    lookupKey (l1.foldl
      (fun acc p => if flushMerges ns now p
        then setAssoc acc p.1 (⟨p.2.value, now + L2_TTLS ns⟩ : DiskEntry V) else acc) acc) ck =
      some ⟨e.value, now + L2_TTLS ns⟩ := by
  induction l1 with
  | nil => intro acc _ hmem _; simp at hmem
  | cons q rest ih =>
    intro acc hnd hmem hm
    simp only [List.map_cons, List.nodup_cons] at hnd
    rcases List.mem_cons.mp hmem with he | hmem'
    · have hq : flushMerges ns now q = true := he ▸ hm
      simp only [List.foldl_cons, hq, if_true]
      rw [flushFold_lookup_nomerge ns now rest ck _
        (fun p hp hpk => by
          exact absurd (hpk ▸ List.mem_map_of_mem Prod.fst hp)
            (by rw [← he] at hnd; simpa using hnd.1))]
      rw [← he]
      exact setAssoc_lookup_self _ _ _
    · have hne : q.1 ≠ ck := by
        intro he
        exact hnd.1 (he ▸ List.mem_map_of_mem Prod.fst hmem')
      simp only [List.foldl_cons]
      cases hq : flushMerges ns now q
      · simp only [Bool.false_eq_true, if_false]
        exact ih acc hnd.2 hmem' hm
      · simp only [if_true]
        exact ih _ hnd.2 hmem' hm

theorem lookupKey_eq_none [DecidableEq κ] (l : List (κ × β)) (k : κ)
    (h : ∀ p ∈ l, p.1 ≠ k) : lookupKey l k = none := by
  induction l with
  | nil => rfl
  | cons p rest ih =>
    simp only [lookupKey, h p (List.mem_cons_self _ _), if_false]
    exact ih (fun q hq => h q (List.mem_cons_of_mem _ hq))

theorem lookupKey_filter_of_none [DecidableEq κ] (l : List (κ × β)) (k : κ)
    (keep : κ × β → Bool) (h : lookupKey l k = none) :
    lookupKey (l.filter keep) k = none := by
  induction l with
  | nil => rfl
  | cons p rest ih =>
    by_cases hp : p.1 = k
    · simp [lookupKey, hp] at h
    · simp only [lookupKey, hp, if_false] at h
      cases hk : keep p
      · simp only [List.filter, hk]
        exact ih h
      · simp only [List.filter, hk, lookupKey, hp, if_false]
        exact ih h

theorem get_eq_none {V : Type} (md5 : String → String) (st : CacheState V)
    (ns : CacheNamespace) (key : String) (now : Nat)
    (h1 : lookupKey st.l1 (cacheKey md5 ns key) = none)
    (h2 : IntelligentCache.l2Get st ns (cacheKey md5 ns key) now = none) :
    (IntelligentCache.get md5 st ns key now).1 = none := by
  simp only [IntelligentCache.get, h1, IntelligentCache.getL2Phase, h2]

/-- Claim C3: the debounced flush merges rather than overwrites. Writing the
namespace back produces one version-1 unit in which (i) every
currently-unexpired fast-tier entry of the namespace appears with the fresh
persisted-tier expiry `now + L2_TTLS[ns]`, independent of the fast-tier
expiry it carried, (ii) an unexpired entry already on disk whose key is not
among the flushed fast-tier entries is still present unchanged, (iii) no
expired entry survives, and (iv) a missing or malformed existing file is
treated as empty. -/
theorem flushL2_merge_spec {V : Type} (st : CacheState V) (ns : CacheNamespace) (now : Nat)
    (hnodup : (st.l1.map Prod.fst).Nodup) :
    ∃ f' : DiskCacheFormat V,
      (IntelligentCache.flushL2 st ns now).disk ns = .file f' ∧ f'.version = 1 ∧
      (∀ ck e, lookupKey st.l1 ck = some e → flushMerges ns now (ck, e) = true →
        lookupKey f'.entries ck = some ⟨e.value, now + L2_TTLS ns⟩) ∧
      (∀ ck de, lookupKey (flushExisting st ns).entries ck = some de → now < de.expiresAt →
        (∀ p ∈ st.l1, p.1 = ck → flushMerges ns now p = false) →
        lookupKey f'.entries ck = some de) ∧
      (∀ q ∈ f'.entries, now < q.2.expiresAt) ∧
      ((st.disk ns = .missing ∨ st.disk ns = .malformed) →
        (flushExisting st ns).entries = []) := by
  refine ⟨⟨1, ((st.l1.foldl
      (fun acc p => if flushMerges ns now p
        then setAssoc acc p.1 (⟨p.2.value, now + L2_TTLS ns⟩ : DiskEntry V) else acc)
      (flushExisting st ns).entries).filter fun q => now < q.2.expiresAt)⟩,
    ?_, rfl, ?_, ?_, ?_, ?_⟩
  · simp [IntelligentCache.flushL2]
  · intro ck e hl he
    have hmerged := flushFold_lookup_merged ns now st.l1 ck e
      (flushExisting st ns).entries hnodup (lookupKey_mem hl) he
    exact lookupKey_filter_keep _ hmerged
      (by simp [Nat.lt_add_of_pos_right (L2_TTLS_pos ns)])
  · intro ck de hex hde hno
    have huntouched := flushFold_lookup_nomerge ns now st.l1 ck
      (flushExisting st ns).entries hno
    exact lookupKey_filter_keep _ (huntouched.trans hex) (by simpa using hde)
  · intro q hq
    simpa using (List.mem_filter.mp hq).2
  · rintro (h | h) <;> simp [flushExisting, h]

/-- Witness for C3: flushing one live fast-tier `kb` entry merges it at the
fresh persisted expiry while the unrelated on-disk key survives. -/
theorem flushL2_merge_spec_witness :
    ∃ f' : DiskCacheFormat Nat,
      (IntelligentCache.flushL2 stFlushW .kb 50).disk .kb = .file f' ∧ f'.version = 1 ∧
      (∀ ck e, lookupKey stFlushW.l1 ck = some e → flushMerges .kb 50 (ck, e) = true →
        lookupKey f'.entries ck = some ⟨e.value, 50 + L2_TTLS .kb⟩) ∧
      (∀ ck de, lookupKey (flushExisting stFlushW .kb).entries ck = some de →
        50 < de.expiresAt →
        (∀ p ∈ stFlushW.l1, p.1 = ck → flushMerges .kb 50 p = false) →
        lookupKey f'.entries ck = some de) ∧
      (∀ q ∈ f'.entries, 50 < q.2.expiresAt) ∧
      ((stFlushW.disk .kb = .missing ∨ stFlushW.disk .kb = .malformed) →
        (flushExisting stFlushW .kb).entries = []) :=
  flushL2_merge_spec stFlushW .kb 50 (by decide)

/-- Claim C4: `get` never returns an expired entry — a returned value was
read from a tier whose entry satisfied `now < expiresAt` at the moment of
the read; an expired fast-tier entry is treated as absent (the result is
exactly the persisted-tier read) and is lazily evicted when the persisted
tier misses too. -/
theorem cacheGet_never_expired {V : Type} (md5 : String → String) (st : CacheState V)
    (ns : CacheNamespace) (key : String) (now : Nat) :
    (∀ v, (IntelligentCache.get md5 st ns key now).1 = some v →
      (∃ e, lookupKey st.l1 (cacheKey md5 ns key) = some e ∧ now < e.expiresAt ∧
        e.value = v) ∨
      (∃ de, diskLookup st ns (cacheKey md5 ns key) = some de ∧ now < de.expiresAt ∧
        de.value = v)) ∧
    (∀ e, lookupKey st.l1 (cacheKey md5 ns key) = some e → e.expiresAt ≤ now →
      (IntelligentCache.get md5 st ns key now).1 =
        IntelligentCache.l2Get st ns (cacheKey md5 ns key) now ∧
      (IntelligentCache.l2Get st ns (cacheKey md5 ns key) now = none →
        lookupKey (IntelligentCache.get md5 st ns key now).2.l1 (cacheKey md5 ns key) =
          none)) := by
  have hl2inv : ∀ v, IntelligentCache.l2Get st ns (cacheKey md5 ns key) now = some v →
      ∃ de, diskLookup st ns (cacheKey md5 ns key) = some de ∧ now < de.expiresAt ∧
        de.value = v := by
    intro v hv
    unfold IntelligentCache.l2Get at hv
    cases hdk : diskLookup st ns (cacheKey md5 ns key) with
    | none => rw [hdk] at hv; simp at hv
    | some de =>
      rw [hdk] at hv
      by_cases hexp : de.expiresAt ≤ now
      · simp [hexp] at hv
      · simp only [hexp, if_false] at hv
        exact ⟨de, rfl, by omega, by simpa using hv⟩
  constructor
  · intro v hv
    cases hl1 : lookupKey st.l1 (cacheKey md5 ns key) with
    | some e =>
      by_cases he : e.expiresAt > now
      · left
        simp only [IntelligentCache.get, hl1, he, if_true] at hv
        exact ⟨e, rfl, by omega, by simpa using hv⟩
      · right
        simp only [IntelligentCache.get, hl1, he, if_false,
          IntelligentCache.getL2Phase] at hv
        cases hl2 : IntelligentCache.l2Get st ns (cacheKey md5 ns key) now with
        | none =>
          rw [show IntelligentCache.l2Get { st with l1 := removeKey st.l1 (cacheKey md5 ns key) }
              ns (cacheKey md5 ns key) now =
              IntelligentCache.l2Get st ns (cacheKey md5 ns key) now from rfl, hl2] at hv
          simp at hv
        | some w =>
          rw [show IntelligentCache.l2Get { st with l1 := removeKey st.l1 (cacheKey md5 ns key) }
              ns (cacheKey md5 ns key) now =
              IntelligentCache.l2Get st ns (cacheKey md5 ns key) now from rfl, hl2] at hv
          have hw : w = v := by simpa using hv
          subst hw
          exact hl2inv w hl2
    | none =>
      right
      simp only [IntelligentCache.get, hl1, IntelligentCache.getL2Phase] at hv
      cases hl2 : IntelligentCache.l2Get st ns (cacheKey md5 ns key) now with
      | none => rw [hl2] at hv; simp at hv
      | some w =>
        rw [hl2] at hv
        have hw : w = v := by simpa using hv
        subst hw
        exact hl2inv w hl2
  · intro e hl1 hexp
    have hngt : ¬(e.expiresAt > now) := by omega
    constructor
    · simp only [IntelligentCache.get, hl1, hngt, if_false, IntelligentCache.getL2Phase]
      rw [show IntelligentCache.l2Get { st with l1 := removeKey st.l1 (cacheKey md5 ns key) }
          ns (cacheKey md5 ns key) now =
          IntelligentCache.l2Get st ns (cacheKey md5 ns key) now from rfl]
      cases hl2 : IntelligentCache.l2Get st ns (cacheKey md5 ns key) now <;> simp [hl2]
    · intro hl2
      simp only [IntelligentCache.get, hl1, hngt, if_false, IntelligentCache.getL2Phase]
      rw [show IntelligentCache.l2Get { st with l1 := removeKey st.l1 (cacheKey md5 ns key) }
          ns (cacheKey md5 ns key) now =
          IntelligentCache.l2Get st ns (cacheKey md5 ns key) now from rfl, hl2]
      simp only
      exact lookupKey_filter_none _ _ _ (fun p hp => by simp [hp])

/-- Witness for C4: the live fast-tier entry of `stGetW` is returned
unexpired at instant 50; at instant 100 it is expired, treated as absent,
read through to the empty persisted tier, and evicted. -/
theorem cacheGet_never_expired_witness :
    ((∃ e, lookupKey stGetW.l1 (cacheKey md5id .kb "k") = some e ∧ 50 < e.expiresAt ∧
        e.value = 42) ∨
     (∃ de, diskLookup stGetW .kb (cacheKey md5id .kb "k") = some de ∧ 50 < de.expiresAt ∧
        de.value = 42)) ∧
    ((IntelligentCache.get md5id stGetW .kb "k" 100).1 =
      IntelligentCache.l2Get stGetW .kb (cacheKey md5id .kb "k") 100 ∧
     (IntelligentCache.l2Get stGetW .kb (cacheKey md5id .kb "k") 100 = none →
      lookupKey (IntelligentCache.get md5id stGetW .kb "k" 100).2.l1
        (cacheKey md5id .kb "k") = none)) :=
  ⟨(cacheGet_never_expired md5id stGetW .kb "k" 50).1 42 (by decide),
   (cacheGet_never_expired md5id stGetW .kb "k" 100).2 ⟨42, 100⟩ (by decide) (by decide)⟩

theorem get_after_flush_none {V : Type} (md5 : String → String) (stX : CacheState V)
    (ns : CacheNamespace) (key : String) (now1 now2 : Nat)
    (hl1 : ∀ p ∈ stX.l1, p.1.1 ≠ ns)
    (hdisk : stX.disk ns = .missing) :
    (IntelligentCache.get md5 (IntelligentCache.flushL2 stX ns now1) ns key now2).1 = none := by
  have hkey : (cacheKey md5 ns key).1 = ns := rfl
  have hnom : ∀ p ∈ stX.l1, p.1 = cacheKey md5 ns key → flushMerges ns now1 p = false :=
    fun p hp hpk => absurd (hpk ▸ hkey : p.1.1 = ns) (hl1 p hp)
  have hexist : (flushExisting stX ns).entries = [] := by simp [flushExisting, hdisk]
  have hmerged := flushFold_lookup_nomerge ns now1 stX.l1 (cacheKey md5 ns key)
    (flushExisting stX ns).entries hnom
  apply get_eq_none
  · exact lookupKey_eq_none _ _
      (fun p hp hpk => absurd (hpk ▸ hkey : p.1.1 = ns) (hl1 p hp))
  · have hnone := lookupKey_filter_of_none
      (stX.l1.foldl
        (fun acc p => if flushMerges ns now1 p
          then setAssoc acc p.1 (⟨p.2.value, now1 + L2_TTLS ns⟩ : DiskEntry V) else acc)
        (flushExisting stX ns).entries)
      (cacheKey md5 ns key) (fun q => decide (now1 < q.2.expiresAt))
      (by rw [hmerged, hexist]; rfl)
    simp [IntelligentCache.l2Get, diskLookup, IntelligentCache.flushL2, hnone]

/-- Claim C5: immediately after `invalidate(ns)`, `get` returns absent for
every key of the namespace at every instant — and it still does after a
pending debounced persisted write for that namespace fires, because the
flush then merges an empty fast tier into the deleted file. -/
theorem invalidate_leaves_nothing_readable {V : Type} (md5 : String → String)
    (st : CacheState V) (ns : CacheNamespace) (key : String) (now now1 now2 : Nat) :
    (IntelligentCache.get md5 (IntelligentCache.invalidate st ns) ns key now).1 = none ∧
    (IntelligentCache.get md5
      (IntelligentCache.l2TimerFire (IntelligentCache.invalidate st ns) ns now1)
      ns key now2).1 = none := by
  have hkey : (cacheKey md5 ns key).1 = ns := rfl
  have hl1 : ∀ (l : List (CKey × CacheEntry V)),
      lookupKey (l.filter fun p => !(p.1.1 = ns : Bool)) (cacheKey md5 ns key) = none :=
    fun l => lookupKey_filter_none l _ _ (fun p hp => by simp [hp ▸ hkey])
  constructor
  · apply get_eq_none
    · exact hl1 st.l1
    · simp [IntelligentCache.l2Get, diskLookup, IntelligentCache.invalidate]
  · simp only [IntelligentCache.l2TimerFire]
    cases hd : (IntelligentCache.invalidate st ns).l2Dirty.contains ns with
    | false =>
      simp only [hd, Bool.false_eq_true, if_false]
      apply get_eq_none
      · exact hl1 st.l1
      · simp [IntelligentCache.l2Get, diskLookup, IntelligentCache.invalidate]
    | true =>
      simp only [hd, if_true]
      apply get_after_flush_none
      · intro p hp
        have hp' : p ∈ st.l1.filter (fun p => !(p.1.1 = ns : Bool)) := hp
        have := (List.mem_filter.mp hp').2
        simpa using this
      · simp [IntelligentCache.invalidate]

/-! ## Claim C1: the assembler never throws -/

theorem except_bind_ok {ε α β : Type} (a : α) (f : α → Except ε β) :
    ((Except.ok a : Except ε α) >>= f) = f a := rfl

theorem withTimeout_runOp_ok (env : Env) (args : List String) (ms : Nat) (fb : RunResult) :
    ∃ r, (withTimeout (runOp env args) ms fb).result = .ok r := by
  unfold withTimeout runOp
  cases env.runSettles args with
  | none => exact ⟨fb, rfl⟩
  | some t =>
    by_cases h : t < ms
    · exact ⟨env.runResult args, by simp [h]⟩
    · exact ⟨fb, by simp [h]⟩

theorem fetchRecentSessionsFresh_ok (env : Env) (memo : Option CachedContext)
    (depth : ContextDepth) :
    ∃ v, fetchRecentSessions.fetchRecentSessionsFresh env memo depth = .ok v := by
  unfold fetchRecentSessions.fetchRecentSessionsFresh
  obtain ⟨r, hr⟩ := withTimeout_runOp_ok env (sessionsQueryArgs depth) QUERY_TIMEOUT_MS
    ⟨"[]", "", 1⟩
  rw [hr, except_bind_ok]
  by_cases hex : r.exitCode ≠ 0
  · exact ⟨([], memo), by simp [hex]⟩
  · simp only [hex, if_false]
    cases hp : (do
        let raw ← extractJSON r.stdout
        let items := match raw with
          | .arr es => es.toList
          | _ => []
        exMapM normalizeSession items : Except JsErr (List SessionMeta)) with
    | ok sessions => exact ⟨(sessions, some ⟨sessions, env.now⟩), rfl⟩
    | error e => exact ⟨([], memo), rfl⟩

theorem fetchRecentSessions_ok (env : Env) (memo : Option CachedContext)
    (depth : ContextDepth) :
    ∃ v, fetchRecentSessions env memo depth = .ok v := by
  unfold fetchRecentSessions
  cases memo with
  | none => exact fetchRecentSessionsFresh_ok env none depth
  | some c =>
    by_cases hfresh : env.now - c.fetchedAt < CACHE_TTL_MS
    · exact ⟨(c.sessions, some c), by simp [hfresh]⟩
    · simpa [hfresh] using fetchRecentSessionsFresh_ok env (some c) depth

theorem runKBSearch_ok (env : Env) (term : String) :
    ∃ v, runKBSearch env term = .ok v := by
  unfold runKBSearch
  obtain ⟨r, hr⟩ := withTimeout_runOp_ok env (kbSearchArgs term) QUERY_TIMEOUT_MS
    ⟨"[]", "", 1⟩
  rw [hr, except_bind_ok]
  by_cases hex : r.exitCode ≠ 0
  · exact ⟨[], by simp [hex]⟩
  · simp only [hex, if_false]
    cases hp : (do
        let raw ← extractJSON r.stdout
        let items := match raw with
          | .arr es => es.toList
          | _ => []
        exMapM normalizeKBEntry (items.take 5) : Except JsErr (List KBMatch)) with
    | ok ms => exact ⟨ms, rfl⟩
    | error e => exact ⟨[], rfl⟩

theorem exMapM_ok {α β ε : Type} (f : α → Except ε β) (h : ∀ a, ∃ b, f a = .ok b) :
    ∀ l : List α, ∃ bs, exMapM f l = .ok bs := by
  intro l
  induction l with
  | nil => exact ⟨[], rfl⟩
  | cons a as ih =>
    obtain ⟨b, hb⟩ := h a
    obtain ⟨bs, hbs⟩ := ih
    exact ⟨b :: bs, by simp [exMapM, hb, hbs, except_bind_ok]⟩

theorem searchKB_ok (md5 : String → String) (env : Env) (query : String)
    (st : CacheState (List KBMatch)) :
    ∃ v, searchKB md5 env query st = .ok v := by
  unfold searchKB
  cases hg : (IntelligentCache.get md5 st .kb query env.now).1 with
  | some cached =>
    exact ⟨(cached, (IntelligentCache.get md5 st .kb query env.now).2), by simp only [hg]⟩
  | none =>
    obtain ⟨rs, hrs⟩ := exMapM_ok (runKBSearch env) (runKBSearch_ok env)
      (extractSearchKeywords query 3)
    refine ⟨(mergeKBResults rs,
      if 0 < (mergeKBResults rs).length
      then IntelligentCache.set md5 (IntelligentCache.get md5 st .kb query env.now).2 .kb
        query (mergeKBResults rs) env.now
      else (IntelligentCache.get md5 st .kb query env.now).2), ?_⟩
    simp only [hg, hrs, except_bind_ok]

/-- Claim C1: for every prompt, depth, environment (collaborator behaviour,
clock, reachability), session memo and cache state, the top-level
`buildContext` returns a value — never an exception. Every adapter failure,
malformed-response parse failure, timeout and cache read is absorbed at the
catch sites the source places around them, degrading to absent or shorter
context. -/
theorem buildContext_never_throws (md5 : String → String) (env : Env)
    (memo : Option CachedContext) (st : CacheState (List KBMatch))
    (prompt : String) (depth : ContextDepth) :
    ∃ r, buildContext md5 env memo st prompt depth = .ok r := by
  unfold buildContext
  cases hinst : env.installed with
  | false => exact ⟨(none, memo, st), by simp⟩
  | true =>
    simp only [Bool.not_true, Bool.false_eq_true, if_false]
    obtain ⟨⟨sessions, memo'⟩, hf⟩ := fetchRecentSessions_ok env memo depth
    rw [hf, except_bind_ok]
    by_cases hkbq : depth ≠ ContextDepth.minimal ∧ 5 ≤ prompt.length
    · obtain ⟨⟨kbResults, st'⟩, hs⟩ := searchKB_ok md5 env prompt st
      rw [if_pos hkbq]
      simp only [hs, except_bind_ok]
      by_cases hempty : sessions.isEmpty = true ∧ kbResults.isEmpty = true
      · exact ⟨(none, memo', st'), by rw [if_pos hempty]⟩
      · rw [if_neg hempty]
        by_cases hparts : ((if formatSessions env.dateParse env.now sessions depth ≠ ""
              then [formatSessions env.dateParse env.now sessions depth] else []) ++
            (if formatKBResults kbResults ≠ "" then [formatKBResults kbResults] else []) ++
            (if detectActiveProject sessions ≠ "" then [detectActiveProject sessions]
              else [])).isEmpty = true
        · exact ⟨(none, memo', st'), by rw [if_pos hparts]⟩
        · exact ⟨_, by rw [if_neg hparts]⟩
    · rw [if_neg hkbq]
      simp only [except_bind_ok]
      by_cases hempty : sessions.isEmpty = true ∧ (List.isEmpty ([] : List KBMatch)) = true
      · exact ⟨(none, memo', st), by rw [if_pos hempty]⟩
      · rw [if_neg hempty]
        by_cases hparts : ((if formatSessions env.dateParse env.now sessions depth ≠ ""
              then [formatSessions env.dateParse env.now sessions depth] else []) ++
            (if formatKBResults ([] : List KBMatch) ≠ ""
              then [formatKBResults ([] : List KBMatch)] else []) ++
            (if detectActiveProject sessions ≠ "" then [detectActiveProject sessions]
              else [])).isEmpty = true
        · exact ⟨(none, memo', st), by rw [if_pos hparts]⟩
        · exact ⟨_, by rw [if_neg hparts]⟩

/-! ## Claim C10: empty merges are not cached -/

theorem get_miss_stable {V : Type} (md5 : String → String) (st : CacheState V)
    (ns : CacheNamespace) (key : String) (now now' : Nat)
    (h : (IntelligentCache.get md5 st ns key now).1 = none) (hm : now ≤ now') :
    (IntelligentCache.get md5 ((IntelligentCache.get md5 st ns key now).2) ns key now').1 =
      none := by
  have hl2later : IntelligentCache.l2Get st ns (cacheKey md5 ns key) now = none →
      ∀ st2 : CacheState V, diskLookup st2 ns (cacheKey md5 ns key) =
        diskLookup st ns (cacheKey md5 ns key) →
      IntelligentCache.l2Get st2 ns (cacheKey md5 ns key) now' = none := by
    intro hl2 st2 hd2
    unfold IntelligentCache.l2Get at hl2 ⊢
    rw [hd2]
    cases hdk : diskLookup st ns (cacheKey md5 ns key) with
    | none => rfl
    | some de =>
      rw [hdk] at hl2
      have hl2' : (if de.expiresAt ≤ now then none else some de.value) = none := hl2
      show (if de.expiresAt ≤ now' then none else some de.value) = none
      by_cases hexp : de.expiresAt ≤ now
      · rw [if_pos (by omega : de.expiresAt ≤ now')]
      · rw [if_neg hexp] at hl2'
        exact absurd hl2' (by simp)
  cases hl1 : lookupKey st.l1 (cacheKey md5 ns key) with
  | some e =>
    by_cases he : e.expiresAt > now
    · rw [show (IntelligentCache.get md5 st ns key now).1 = some e.value from by
        simp only [IntelligentCache.get, hl1, he, if_true]] at h
      exact absurd h (by simp)
    · cases hl2 : IntelligentCache.l2Get st ns (cacheKey md5 ns key) now with
      | some v =>
        rw [show (IntelligentCache.get md5 st ns key now).1 = some v from by
          simp only [IntelligentCache.get, hl1, he, if_false, IntelligentCache.getL2Phase]
          rw [show IntelligentCache.l2Get
              { st with l1 := removeKey st.l1 (cacheKey md5 ns key) } ns
              (cacheKey md5 ns key) now =
              IntelligentCache.l2Get st ns (cacheKey md5 ns key) now from rfl, hl2]] at h
        exact absurd h (by simp)
      | none =>
        have hst2 : (IntelligentCache.get md5 st ns key now).2 =
            { st with
              l1 := removeKey st.l1 (cacheKey md5 ns key)
              l2Loaded := insertNs st.l2Loaded ns } := by
          simp only [IntelligentCache.get, hl1, he, if_false, IntelligentCache.getL2Phase]
          rw [show IntelligentCache.l2Get
              { st with l1 := removeKey st.l1 (cacheKey md5 ns key) } ns
              (cacheKey md5 ns key) now =
              IntelligentCache.l2Get st ns (cacheKey md5 ns key) now from rfl, hl2]
        rw [hst2]
        apply get_eq_none
        · exact lookupKey_filter_none _ _ _ (fun p hp => by simp [hp])
        · exact hl2later hl2 _ rfl
  | none =>
    cases hl2 : IntelligentCache.l2Get st ns (cacheKey md5 ns key) now with
    | some v =>
      rw [show (IntelligentCache.get md5 st ns key now).1 = some v from by
        simp only [IntelligentCache.get, hl1, IntelligentCache.getL2Phase, hl2]] at h
      exact absurd h (by simp)
    | none =>
      have hst2 : (IntelligentCache.get md5 st ns key now).2 =
          { st with l2Loaded := insertNs st.l2Loaded ns } := by
        simp only [IntelligentCache.get, hl1, IntelligentCache.getL2Phase, hl2]
      rw [hst2]
      apply get_eq_none
      · exact hl1
      · exact hl2later hl2 _ rfl

/-- Claim C10: when the cache misses and the multi-keyword merge yields zero
matches, `searchKB` stores nothing — the query is still absent from the `kb`
namespace afterwards, and a repeated identical query consults the upstream
keyword searches again (its result is recomputed from the second
environment's replies rather than served from the cache). -/
theorem searchKB_empty_merge_no_cache (md5 : String → String) (env1 env2 : Env)
    (query : String) (st : CacheState (List KBMatch)) (rs1 : List (List KBMatch))
    (h1 : (IntelligentCache.get md5 st .kb query env1.now).1 = none)
    (h2 : exMapM (runKBSearch env1) (extractSearchKeywords query 3) = .ok rs1)
    (h3 : mergeKBResults rs1 = [])
    (hmono : env1.now ≤ env2.now) :
    searchKB md5 env1 query st =
      .ok ([], (IntelligentCache.get md5 st .kb query env1.now).2) ∧
    (IntelligentCache.get md5 ((IntelligentCache.get md5 st .kb query env1.now).2)
      .kb query env2.now).1 = none ∧
    ∃ rs2 st2, exMapM (runKBSearch env2) (extractSearchKeywords query 3) = .ok rs2 ∧
      searchKB md5 env2 query ((IntelligentCache.get md5 st .kb query env1.now).2) =
        .ok (mergeKBResults rs2, st2) := by
  have hmiss := get_miss_stable md5 st .kb query env1.now env2.now h1 hmono
  refine ⟨?_, hmiss, ?_⟩
  · unfold searchKB
    simp only [h1, h2, except_bind_ok, h3]
    simp
  · obtain ⟨rs2, hrs2⟩ := exMapM_ok (runKBSearch env2) (runKBSearch_ok env2)
      (extractSearchKeywords query 3)
    refine ⟨rs2,
      (if 0 < (mergeKBResults rs2).length
        then IntelligentCache.set md5
          (IntelligentCache.get md5 ((IntelligentCache.get md5 st .kb query env1.now).2)
            .kb query env2.now).2 .kb query (mergeKBResults rs2) env2.now
        else (IntelligentCache.get md5 ((IntelligentCache.get md5 st .kb query env1.now).2)
          .kb query env2.now).2), hrs2, ?_⟩
    unfold searchKB
    simp only [hmiss, hrs2, except_bind_ok]

/-- Witness for C10: with an upstream that returns no matches, the query
stays uncached and a second call with a different upstream recomputes from
that upstream. -/
theorem searchKB_empty_merge_no_cache_witness :
    searchKB md5id envEmptyKB "hello" (emptyCacheState (List KBMatch)) =
      .ok ([], (IntelligentCache.get md5id (emptyCacheState (List KBMatch)) .kb "hello"
        envEmptyKB.now).2) ∧
    (IntelligentCache.get md5id
      ((IntelligentCache.get md5id (emptyCacheState (List KBMatch)) .kb "hello"
        envEmptyKB.now).2) .kb "hello" envOneKB.now).1 = none ∧
    ∃ rs2 st2, exMapM (runKBSearch envOneKB) (extractSearchKeywords "hello" 3) = .ok rs2 ∧
      searchKB md5id envOneKB "hello"
        ((IntelligentCache.get md5id (emptyCacheState (List KBMatch)) .kb "hello"
          envEmptyKB.now).2) = .ok (mergeKBResults rs2, st2) :=
  searchKB_empty_merge_no_cache md5id envEmptyKB envOneKB "hello"
    (emptyCacheState (List KBMatch)) [[]] (by decide) (by decide) (by decide) (by decide)

/-! ## Claim C8: the multi-keyword merge ranking -/

theorem insertStable_pairwise {le : α → α → Bool}
    (htrans : ∀ a b c, le a b = true → le b c = true → le a c = true)
    (htotal : ∀ a b, le a b = true ∨ le b a = true) (a : α) (l : List α)
    (h : l.Pairwise fun x y => le x y = true) :
    (insertStable le a l).Pairwise fun x y => le x y = true := by
  induction l with
  | nil => simp [insertStable]
  | cons b bs ih =>
    rcases List.pairwise_cons.mp h with ⟨hb, hbs⟩
    by_cases hba : le b a = true
    · simp only [insertStable, hba, if_true]
      refine List.pairwise_cons.mpr ⟨?_, ih hbs⟩
      intro x hx
      rcases List.mem_cons.mp ((insertStable_perm le a bs).mem_iff.mp hx) with hxa | hxm
      · exact hxa ▸ hba
      · exact hb x hxm
    · simp only [insertStable, hba, Bool.false_eq_true, if_false]
      refine List.pairwise_cons.mpr ⟨?_, h⟩
      intro x hx
      rcases List.mem_cons.mp hx with hxb | hxm
      · subst hxb
        rcases htotal a x with hax | hxa
        · exact hax
        · exact absurd hxa hba
      · rcases htotal a b with hab | hba'
        · exact htrans a b x hab (hb x hxm)
        · exact absurd hba' hba

theorem stableSortBy_pairwise {le : α → α → Bool}
    (htrans : ∀ a b c, le a b = true → le b c = true → le a c = true)
    (htotal : ∀ a b, le a b = true ∨ le b a = true) (l : List α) :
    (stableSortBy le l).Pairwise fun x y => le x y = true := by
  suffices h : ∀ acc : List α, (acc.Pairwise fun x y => le x y = true) →
      ((l.foldl (fun acc a => insertStable le a acc) acc).Pairwise
        fun x y => le x y = true) from h [] (by simp)
  induction l with
  | nil => intro acc hacc; simpa using hacc
  | cons a rest ih =>
    intro acc hacc
    exact ih _ (insertStable_pairwise htrans htotal a acc hacc)

theorem kbDocFold_flatten (rs : List (List KBMatch)) :
    ∀ acc, rs.foldl kbDocFold acc = rs.flatten.foldl bumpFreq acc := by
  induction rs with
  | nil => intro acc; rfl
  | cons l ls ih =>
    intro acc
    simp only [List.foldl_cons, List.flatten_cons, List.foldl_append]
    exact ih _

theorem bumpFreq_freqOfId (acc : List (KBMatch × Nat)) (m : KBMatch) (i : String) :
    freqOfId (bumpFreq acc m) i =
      if m.id = i then some ((freqOfId acc i).getD 0 + 1) else freqOfId acc i := by
  induction acc with
  | nil =>
    by_cases hmi : m.id = i <;> simp [bumpFreq, freqOfId, hmi]
  | cons q rest ih =>
    by_cases hq : q.1.id = m.id
    · simp only [bumpFreq, hq, if_true]
      by_cases hmi : m.id = i
      · subst hmi
        simp [freqOfId, hq]
      · have hqi : ¬q.1.id = i := hq ▸ hmi
        simp [freqOfId, hqi, hmi]
    · simp only [bumpFreq, hq, if_false]
      by_cases hqi : q.1.id = i
      · have hmi : ¬m.id = i := fun he => hq (he ▸ hqi)
        simp [freqOfId, hqi, hmi]
      · simp [freqOfId, hqi, ih]

theorem bumpFreq_keysId (acc : List (KBMatch × Nat)) (m : KBMatch) :
    (bumpFreq acc m).map (fun p => p.1.id) =
      if m.id ∈ acc.map (fun p => p.1.id) then acc.map (fun p => p.1.id)
      else acc.map (fun p => p.1.id) ++ [m.id] := by
  induction acc with
  | nil => simp [bumpFreq]
  | cons q rest ih =>
    by_cases hq : q.1.id = m.id
    · simp [bumpFreq, hq]
    · have hq' : ¬m.id = q.1.id := fun he => hq he.symm
      simp only [bumpFreq, hq, if_false, List.map_cons, List.mem_cons, hq', false_or, ih]
      by_cases hm : m.id ∈ rest.map fun p => p.1.id
      · simp [hm]
      · simp [hm]

theorem occCount_append_single (flat : List KBMatch) (m : KBMatch) (i : String) :
    occCount (flat ++ [m]) i = occCount flat i + (if m.id = i then 1 else 0) := by
  by_cases hmi : m.id = i <;> simp [occCount, List.filter_append, hmi]

theorem invKB_step {flat : List KBMatch} {acc : List (KBMatch × Nat)} (m : KBMatch)
    (h : InvKB flat acc) : InvKB (flat ++ [m]) (bumpFreq acc m) := by
  obtain ⟨hnd, hcount⟩ := h
  constructor
  · rw [bumpFreq_keysId]
    by_cases hm : m.id ∈ acc.map fun p => p.1.id
    · simpa [hm] using hnd
    · simp [hm, List.nodup_append, hnd]
  · intro i
    rw [bumpFreq_freqOfId, occCount_append_single, hcount i]
    by_cases hmi : m.id = i
    · simp only [hmi, if_true]
      by_cases h0 : occCount flat i = 0
      · simp [h0]
      · simp only [h0, if_false, Option.getD_some]
        rw [if_neg (by omega)]
    · simp [hmi]

theorem invKB_foldl (flat : List KBMatch) :
    ∀ (flat0 : List KBMatch) (acc : List (KBMatch × Nat)), InvKB flat0 acc →
    InvKB (flat0 ++ flat) (flat.foldl bumpFreq acc) := by
  induction flat with
  | nil => intro flat0 acc h; simpa using h
  | cons m rest ih =>
    intro flat0 acc h
    have := ih (flat0 ++ [m]) (bumpFreq acc m) (invKB_step m h)
    simpa [List.append_assoc] using this

theorem invKB_final (flat : List KBMatch) : InvKB flat (flat.foldl bumpFreq []) := by
  have h0 : InvKB [] ([] : List (KBMatch × Nat)) := by
    constructor
    · simp
    · intro i
      simp [freqOfId, occCount]
  simpa using invKB_foldl flat [] [] h0

theorem freqOfId_of_mem_nodup {acc : List (KBMatch × Nat)} {p : KBMatch × Nat}
    (hnd : (acc.map fun p => p.1.id).Nodup) (hp : p ∈ acc) :
    freqOfId acc p.1.id = some p.2 := by
  induction acc with
  | nil => simp at hp
  | cons q rest ih =>
    simp only [List.map_cons, List.nodup_cons] at hnd
    rcases List.mem_cons.mp hp with he | hm
    · subst he
      simp [freqOfId]
    · have hne : ¬q.1.id = p.1.id := fun he =>
        hnd.1 (he ▸ List.mem_map_of_mem (fun p => p.1.id) hm)
      simp only [freqOfId, hne, if_false]
      exact ih hnd.2 hm

theorem docMap_freq_eq_occ (rs : List (List KBMatch)) {p : KBMatch × Nat}
    (hp : p ∈ rs.foldl kbDocFold []) : p.2 = occCount rs.flatten p.1.id := by
  have hinv := invKB_final rs.flatten
  rw [kbDocFold_flatten] at hp
  have := freqOfId_of_mem_nodup hinv.1 hp
  rw [hinv.2 p.1.id] at this
  by_cases h0 : occCount rs.flatten p.1.id = 0
  · rw [if_pos h0] at this
    exact absurd this (by simp)
  · rw [if_neg h0] at this
    simpa using this.symm

theorem occCount_nodup_eq_any {l : List KBMatch} (i : String)
    (hnd : (l.map KBMatch.id).Nodup) :
    occCount l i = if l.any (fun m => m.id == i) then 1 else 0 := by
  induction l with
  | nil => simp [occCount]
  | cons m rest ih =>
    simp only [List.map_cons, List.nodup_cons] at hnd
    by_cases hmi : m.id = i
    · have hz : occCount rest i = 0 := by
        simp only [occCount, List.length_eq_zero, List.filter_eq_nil_iff]
        intro x hx
        simp only [beq_iff_eq]
        intro hxi
        exact hnd.1 ((hxi.trans hmi.symm) ▸ List.mem_map_of_mem KBMatch.id hx)
      simp [occCount, List.filter_cons, hmi, List.any_cons]
      simpa [occCount] using hz
    · simp only [occCount, List.filter_cons, beq_iff_eq, hmi, if_false, List.any_cons]
      simpa [occCount, hmi] using ih hnd.2

theorem occCount_flatten_eq_terms (rs : List (List KBMatch)) (i : String)
    (hnd : ∀ l ∈ rs, (l.map KBMatch.id).Nodup) :
    occCount rs.flatten i = termsProducing rs i := by
  induction rs with
  | nil => simp [occCount, termsProducing]
  | cons l ls ih =>
    have hsplit : occCount ((l :: ls).flatten) i = occCount l i + occCount ls.flatten i := by
      simp [occCount, List.flatten_cons, List.filter_append]
    rw [hsplit, occCount_nodup_eq_any i (hnd l (List.mem_cons_self _ _)),
      ih (fun l' hl' => hnd l' (List.mem_cons_of_mem _ hl'))]
    by_cases ha : l.any (fun m => m.id == i) = true
    · simp [termsProducing, List.filter_cons, ha, Nat.add_comm]
    · simp only [Bool.not_eq_true] at ha
      simp [termsProducing, List.filter_cons, ha]

/-- Claim C8, amended: the merged knowledge list is ordered by the number of
occurrences of each identifier across all per-term result lists, descending
(then truncated to 5); when every per-term result list holds distinct
identifiers — the intended upstream shape — that occurrence count coincides
with the number of distinct terms that produced the identifier, so a
candidate produced by more terms never ranks below one produced by fewer.
(The counterexample shows that with duplicate identifiers inside one term's
list, occurrence count and distinct-term count diverge and the claim as
stated fails.) -/
theorem mergeKB_rank (rs : List (List KBMatch)) :
    ((mergeKBResults rs).Pairwise fun a b =>
       occCount rs.flatten b.id ≤ occCount rs.flatten a.id) ∧
    ((∀ l ∈ rs, (l.map KBMatch.id).Nodup) →
      (mergeKBResults rs).Pairwise fun a b =>
        termsProducing rs b.id ≤ termsProducing rs a.id) := by
  have htrans : ∀ a b c : KBMatch × Nat, freqGe a b = true → freqGe b c = true →
      freqGe a c = true := by
    intro a b c hab hbc
    simp only [freqGe, Nat.ble_eq] at hab hbc ⊢
    omega
  have htotal : ∀ a b : KBMatch × Nat, freqGe a b = true ∨ freqGe b a = true := by
    intro a b
    simp only [freqGe, Nat.ble_eq]
    omega
  have hsorted := stableSortBy_pairwise htrans htotal (rs.foldl kbDocFold [])
  have hocc : (stableSortBy freqGe (rs.foldl kbDocFold [])).Pairwise
      (fun p q => occCount rs.flatten q.1.id ≤ occCount rs.flatten p.1.id) := by
    refine hsorted.imp_of_mem ?_
    intro p q hp hq hle
    have hp' := docMap_freq_eq_occ rs ((stableSortBy_perm _ _).mem_iff.mp hp)
    have hq' := docMap_freq_eq_occ rs ((stableSortBy_perm _ _).mem_iff.mp hq)
    simp only [freqGe, Nat.ble_eq] at hle
    omega
  have htake := hocc.sublist (List.take_sublist 5 _)
  have hmain : (mergeKBResults rs).Pairwise fun a b =>
      occCount rs.flatten b.id ≤ occCount rs.flatten a.id := by
    unfold mergeKBResults
    exact List.pairwise_map.mpr htake
  refine ⟨hmain, ?_⟩
  intro hnd
  refine hmain.imp_of_mem ?_
  intro a b _ _ hle
  rw [← occCount_flatten_eq_terms rs a.id hnd, ← occCount_flatten_eq_terms rs b.id hnd]
  exact hle

/-- Witness for C8: with duplicate-free per-term lists, the merged order is
ranked by the number of distinct producing terms. -/
theorem mergeKB_rank_witness :
    (mergeKBResults [[kbMatchX], [kbMatchY], [kbMatchX]]).Pairwise fun a b =>
      termsProducing [[kbMatchX], [kbMatchY], [kbMatchX]] b.id ≤
        termsProducing [[kbMatchX], [kbMatchY], [kbMatchX]] a.id :=
  (mergeKB_rank [[kbMatchX], [kbMatchY], [kbMatchX]]).2 (by decide)

/-- Counterexample for C8 as stated: `kbMatchY` is produced by two distinct
term-searches and `kbMatchX` by only one, yet the merge ranks `kbMatchX`
first, because the triple occurrence of `kbMatchX` inside the single list
outweighs the two distinct terms of `kbMatchY`. -/
theorem mergeKB_rank_cex :
    termsProducing [[kbMatchX, kbMatchX, kbMatchX], [kbMatchY], [kbMatchY]] "y" = 2 ∧
    termsProducing [[kbMatchX, kbMatchX, kbMatchX], [kbMatchY], [kbMatchY]] "x" = 1 ∧
    mergeKBResults [[kbMatchX, kbMatchX, kbMatchX], [kbMatchY], [kbMatchY]] =
      [kbMatchX, kbMatchY] := by
  refine ⟨by decide, by decide, by decide⟩

/-! ## Claim C9: free-text truncation -/

/-- Claim C9, amended: the knowledge adapter returns the upstream content
untruncated (see the counterexample); the bounded preview is enforced by the
formatter instead — the text portion `formatKBResults` renders for any match
is at most 200 characters plus the three-character ellipsis. -/
theorem kbPreview_bounded (r : KBMatch) : (kbPreviewText r.text).length ≤ 203 := by
  unfold kbPreviewText
  by_cases h : r.text.length > 200
  · rw [if_pos h]
    rw [String.length_append]
    have htake : (jsSliceTo r.text 200).length ≤ 200 := by
      unfold jsSliceTo
      rw [String.length_mk]
      simpa using List.length_take_le 200 r.text.toList
    have hdots : ("..." : String).length = 3 := rfl
    omega
  · rw [if_neg h]
    omega

set_option maxRecDepth 100000 in
/-- Counterexample for C9 as stated: the adapter's normalized record keeps
the full 300-character upstream content — the text field it returns is not
truncated to the 200-character preview bound the formatter uses. -/
theorem runKBSearch_no_truncation_cex :
    runKBSearch envLong "term" = .ok [⟨"d1", none, kbLongText⟩] ∧
    kbLongText.length = 300 ∧ (kbPreviewText kbLongText).length = 203 := by
  refine ⟨by decide, by decide, by decide⟩
